import Mathlib

/-!
# Verification of the webhookify client protocol engine (`src/lib/Protocol.js`)

Shallow embedding of the `Protocol` class: the wire codec
(`encodeMessage` / the decoding gate of `processMessage`), the challenge
handshake (`_handleChallenge`), the reply synthesis
(`_generateReplyFunction`, `sendReply`, `sendError`), and the connection
lifecycle handlers wired in `connect()` (open / close / unexpected-response /
error / message / ping plus the two timers).

Modelling conventions:

* JavaScript strings are modelled as `List Nat` of Unicode code points
  (`jstr` converts a Lean string literal).
* The external collaborators used by the source are modelled after their
  documented Node.js behaviour: `querystring.stringify` and
  `querystring.parse` (percent encoding of UTF-8 bytes, `&` and `=`
  separators, duplicate keys collected into arrays, `+` decoded as space),
  `JSON.stringify` and `JSON.parse` (JSON numbers are modelled as integers;
  float payloads are outside this embedding), `Buffer.from(_, "base64")`
  (lenient base64), and `crypto.privateDecrypt`, which is kept abstract as a
  function `List Nat → Option (List Nat)` from ciphertext bytes to the
  decrypted UTF-8 string (`none` models a thrown decryption error).
* Timers (`setTimeout`) are modelled by absolute deadlines stored in the
  state together with a wall clock `now`; an `evTick` event advances the
  clock and fires due timers.
* A thrown-and-uncaught JavaScript exception is modelled as `Except.error`.
-/

set_option maxRecDepth 2048

/-- Code points of a Lean string literal, the model of a JavaScript string. -/
def jstr (s : String) : List Nat := s.toList.map Char.toNat

/-! ## UTF-8 encoding and (lenient) decoding of code-point sequences

Used to model percent encoding and decoding in Node's `querystring`. -/

/-- UTF-8 bytes of one code point (total; meaningful for `c < 0x110000`). -/
def utf8Enc (c : Nat) : List Nat :=
  if c < 0x80 then [c]
  else if c < 0x800 then [0xC0 + c / 64, 0x80 + c % 64]
  else if c < 0x10000 then [0xE0 + c / 4096, 0x80 + c / 64 % 64, 0x80 + c % 64]
  else [0xF0 + c / 262144, 0x80 + c / 4096 % 64, 0x80 + c / 64 % 64, 0x80 + c % 64]

/-- UTF-8 bytes of a code-point sequence. -/
def utf8EncList : List Nat → List Nat
  | [] => []
  | c :: rest => utf8Enc c ++ utf8EncList rest

/-- Decode one UTF-8 sequence from the front of a byte list (lenient:
no overlong/surrogate rejection, which only strengthens the decoder). -/
def utf8DecodeOne : List Nat → Option (Nat × List Nat)
  | [] => none
  | b0 :: r0 =>
    if b0 < 0x80 then some (b0, r0)
    else if b0 < 0xC0 then none
    else if b0 < 0xE0 then
      match r0 with
      | b1 :: r1 =>
        if 0x80 ≤ b1 ∧ b1 < 0xC0 then some ((b0 - 0xC0) * 64 + (b1 - 0x80), r1) else none
      | [] => none
    else if b0 < 0xF0 then
      match r0 with
      | b1 :: b2 :: r2 =>
        if 0x80 ≤ b1 ∧ b1 < 0xC0 ∧ 0x80 ≤ b2 ∧ b2 < 0xC0 then
          some (((b0 - 0xE0) * 64 + (b1 - 0x80)) * 64 + (b2 - 0x80), r2)
        else none
      | _ => none
    else if b0 < 0xF8 then
      match r0 with
      | b1 :: b2 :: b3 :: r3 =>
        if 0x80 ≤ b1 ∧ b1 < 0xC0 ∧ 0x80 ≤ b2 ∧ b2 < 0xC0 ∧ 0x80 ≤ b3 ∧ b3 < 0xC0 then
          some ((((b0 - 0xF0) * 64 + (b1 - 0x80)) * 64 + (b2 - 0x80)) * 64 + (b3 - 0x80), r3)
        else none
      | _ => none
    else none

/-- Fueled lenient decode of a whole byte list; invalid bytes become U+FFFD. -/
def utf8DecodeLoop : Nat → List Nat → List Nat
  | 0, _ => []
  | _, [] => []
  | fuel + 1, b :: rest =>
    match utf8DecodeOne (b :: rest) with
    | some (c, r) => c :: utf8DecodeLoop fuel r
    | none => 0xFFFD :: utf8DecodeLoop fuel rest

/-- Decode a byte list to code points. -/
def utf8Decode (bs : List Nat) : List Nat := utf8DecodeLoop bs.length bs

/-- A code-point bound every JavaScript string satisfies. -/
def validStr (s : List Nat) : Bool := s.all (· < 0x110000)

theorem utf8Enc_ne_nil (c : Nat) : utf8Enc c ≠ [] := by
  unfold utf8Enc
  split_ifs <;> simp

theorem utf8Enc_length_pos (c : Nat) : 0 < (utf8Enc c).length := by
  cases h : utf8Enc c with
  | nil => exact absurd h (utf8Enc_ne_nil c)
  | cons _ _ => simp

theorem utf8DecodeOne_enc (c : Nat) (hc : c < 0x110000) (rest : List Nat) :
    utf8DecodeOne (utf8Enc c ++ rest) = some (c, rest) := by
  unfold utf8Enc
  by_cases h1 : c < 0x80
  · rw [if_pos h1]
    show utf8DecodeOne (c :: rest) = some (c, rest)
    simp only [utf8DecodeOne]
    rw [if_pos h1]
  · by_cases h2 : c < 0x800
    · rw [if_neg h1, if_pos h2]
      show utf8DecodeOne ((0xC0 + c / 64) :: (0x80 + c % 64) :: rest) = some (c, rest)
      simp only [utf8DecodeOne]
      have e1 : ¬ (0xC0 + c / 64 < 0x80) := by omega
      have e2 : ¬ (0xC0 + c / 64 < 0xC0) := by omega
      have e3 : 0xC0 + c / 64 < 0xE0 := by omega
      have e4 : 0x80 ≤ 0x80 + c % 64 ∧ 0x80 + c % 64 < 0xC0 := by omega
      rw [if_neg e1, if_neg e2, if_pos e3, if_pos e4]
      have h : (0xC0 + c / 64 - 0xC0) * 64 + (0x80 + c % 64 - 0x80) = c := by omega
      rw [h]
    · by_cases h3 : c < 0x10000
      · rw [if_neg h1, if_neg h2, if_pos h3]
        show utf8DecodeOne ((0xE0 + c / 4096) :: (0x80 + c / 64 % 64) :: (0x80 + c % 64)
          :: rest) = some (c, rest)
        simp only [utf8DecodeOne]
        have e1 : ¬ (0xE0 + c / 4096 < 0x80) := by omega
        have e2 : ¬ (0xE0 + c / 4096 < 0xC0) := by omega
        have e3 : ¬ (0xE0 + c / 4096 < 0xE0) := by omega
        have e4 : 0xE0 + c / 4096 < 0xF0 := by omega
        have e5 : 0x80 ≤ 0x80 + c / 64 % 64 ∧ 0x80 + c / 64 % 64 < 0xC0 ∧
            0x80 ≤ 0x80 + c % 64 ∧ 0x80 + c % 64 < 0xC0 := by omega
        rw [if_neg e1, if_neg e2, if_neg e3, if_pos e4, if_pos e5]
        have h : ((0xE0 + c / 4096 - 0xE0) * 64 + (0x80 + c / 64 % 64 - 0x80)) * 64
            + (0x80 + c % 64 - 0x80) = c := by omega
        rw [h]
      · rw [if_neg h1, if_neg h2, if_neg h3]
        show utf8DecodeOne ((0xF0 + c / 262144) :: (0x80 + c / 4096 % 64)
          :: (0x80 + c / 64 % 64) :: (0x80 + c % 64) :: rest) = some (c, rest)
        simp only [utf8DecodeOne]
        have e1 : ¬ (0xF0 + c / 262144 < 0x80) := by omega
        have e2 : ¬ (0xF0 + c / 262144 < 0xC0) := by omega
        have e3 : ¬ (0xF0 + c / 262144 < 0xE0) := by omega
        have e4 : ¬ (0xF0 + c / 262144 < 0xF0) := by omega
        have e5 : 0xF0 + c / 262144 < 0xF8 := by omega
        have e6 : 0x80 ≤ 0x80 + c / 4096 % 64 ∧ 0x80 + c / 4096 % 64 < 0xC0 ∧
            0x80 ≤ 0x80 + c / 64 % 64 ∧ 0x80 + c / 64 % 64 < 0xC0 ∧
            0x80 ≤ 0x80 + c % 64 ∧ 0x80 + c % 64 < 0xC0 := by omega
        rw [if_neg e1, if_neg e2, if_neg e3, if_neg e4, if_pos e5, if_pos e6]
        have h : (((0xF0 + c / 262144 - 0xF0) * 64 + (0x80 + c / 4096 % 64 - 0x80)) * 64
            + (0x80 + c / 64 % 64 - 0x80)) * 64 + (0x80 + c % 64 - 0x80) = c := by omega
        rw [h]

theorem utf8DecodeLoop_encList (s : List Nat) (hs : validStr s = true) :
    ∀ fuel, (utf8EncList s).length ≤ fuel →
      utf8DecodeLoop fuel (utf8EncList s) = s := by
  induction s with
  | nil =>
    intro fuel _
    cases fuel <;> rfl
  | cons c rest ih =>
    intro fuel hfuel
    simp only [validStr, List.all_cons, Bool.and_eq_true, decide_eq_true_eq] at hs
    have hc : c < 0x110000 := hs.1
    have hrest : validStr rest = true := hs.2
    have hlen : (utf8EncList (c :: rest)).length =
        (utf8Enc c).length + (utf8EncList rest).length := by
      simp [utf8EncList]
    have hpos := utf8Enc_length_pos c
    obtain ⟨fuel', rfl⟩ : ∃ f, fuel = f + 1 := by
      cases fuel with
      | zero =>
        exfalso
        omega
      | succ n => exact ⟨n, rfl⟩
    obtain ⟨b, bs, hbs⟩ : ∃ b bs, utf8EncList (c :: rest) = b :: bs := by
      cases h : utf8Enc c with
      | nil => exact absurd h (utf8Enc_ne_nil c)
      | cons b bs =>
        exact ⟨b, bs ++ utf8EncList rest, by simp [utf8EncList, h]⟩
    have hdec : utf8DecodeOne (b :: bs) = some (c, utf8EncList rest) := by
      rw [← hbs]
      exact utf8DecodeOne_enc c hc (utf8EncList rest)
    rw [hbs, utf8DecodeLoop, hdec]
    have ihr : utf8DecodeLoop fuel' (utf8EncList rest) = rest := by
      apply ih hrest fuel'
      omega
    show c :: utf8DecodeLoop fuel' (utf8EncList rest) = c :: rest
    rw [ihr]

theorem utf8Decode_encList (s : List Nat) (hs : validStr s = true) :
    utf8Decode (utf8EncList s) = s :=
  utf8DecodeLoop_encList s hs _ le_rfl

/-! ## Percent encoding (Node `querystring.escape` / `querystring.unescape`)

`querystring.escape` leaves the `encodeURIComponent` unreserved set
(alphanumerics and `- _ . ! ~ * ' ( )`) untouched and percent-encodes the
UTF-8 bytes of every other character; `querystring.parse` additionally
decodes `+` as space and leaves a `%` that is not followed by two hex
digits literal. -/

/-- Characters `querystring.escape` leaves unescaped. -/
def unreservedB (c : Nat) : Bool :=
  (0x41 ≤ c && c ≤ 0x5A) || (0x61 ≤ c && c ≤ 0x7A) || (0x30 ≤ c && c ≤ 0x39) ||
  c == 0x2D || c == 0x2E || c == 0x5F || c == 0x7E || c == 0x21 || c == 0x2A ||
  c == 0x27 || c == 0x28 || c == 0x29

/-- Uppercase hex digit character for `d < 16`. -/
def hexDigitUpper (d : Nat) : Nat := if d < 10 then 0x30 + d else 0x41 + (d - 10)

/-- Numeric value of a hex digit character (either case). -/
def hexVal (c : Nat) : Option Nat :=
  if 0x30 ≤ c ∧ c ≤ 0x39 then some (c - 0x30)
  else if 0x41 ≤ c ∧ c ≤ 0x46 then some (c - 0x41 + 10)
  else if 0x61 ≤ c ∧ c ≤ 0x66 then some (c - 0x61 + 10)
  else none

/-- `%XY` encoding of one byte. -/
def pctByte (b : Nat) : List Nat := [0x25, hexDigitUpper (b / 16), hexDigitUpper (b % 16)]

/-- Percent-encode a byte list. -/
def pctEncodeBytes : List Nat → List Nat
  | [] => []
  | b :: rest => pctByte b ++ pctEncodeBytes rest

/-- One character of `querystring.escape` output. -/
def escChar (c : Nat) : List Nat :=
  if unreservedB c then [c] else pctEncodeBytes (utf8Enc c)

/-- Model of `querystring.escape`. -/
def qsEscape : List Nat → List Nat
  | [] => []
  | c :: rest => escChar c ++ qsEscape rest

/-- Reading of one `%XY` escape: the byte and the remaining input,
or `none` when the two hex digits are missing/invalid. -/
def pctDecodeStep : List Nat → Option (Nat × List Nat)
  | h1 :: h2 :: r2 =>
    match hexVal h1, hexVal h2 with
    | some a, some b => some (a * 16 + b, r2)
    | _, _ => none
  | _ => none

/-- Fueled scan of `querystring.unescape` input into a byte stream: `%XY`
pairs become the byte `XY`, `+` becomes a space, and any other character
contributes its own UTF-8 bytes (fuel bounded by the input length). -/
def escapedBytesLoop : Nat → List Nat → List Nat
  | 0, _ => []
  | _, [] => []
  | fuel + 1, c :: rest =>
    if c = 0x25 then
      match pctDecodeStep rest with
      | some (b, r2) => b :: escapedBytesLoop fuel r2
      | none => utf8Enc c ++ escapedBytesLoop fuel rest
    else if c = 0x2B then 0x20 :: escapedBytesLoop fuel rest
    else utf8Enc c ++ escapedBytesLoop fuel rest

/-- Byte stream of a `querystring.unescape` input. -/
def escapedBytes (s : List Nat) : List Nat := escapedBytesLoop s.length s

/-- Model of `querystring.unescape` (as used by `querystring.parse`,
including the `+`-to-space conversion). -/
def qsUnescape (s : List Nat) : List Nat := utf8Decode (escapedBytes s)

theorem unreservedB_lt (c : Nat) (h : unreservedB c = true) : c < 0x80 := by
  simp only [unreservedB, Bool.or_eq_true, Bool.and_eq_true, decide_eq_true_eq,
    beq_iff_eq] at h
  omega

theorem unreservedB_not_special (c : Nat) (h : unreservedB c = true) :
    c ≠ 0x25 ∧ c ≠ 0x2B ∧ c ≠ 0x26 ∧ c ≠ 0x3D := by
  simp only [unreservedB, Bool.or_eq_true, Bool.and_eq_true, decide_eq_true_eq,
    beq_iff_eq] at h
  omega

theorem hexVal_hexDigitUpper (d : Nat) (hd : d < 16) :
    hexVal (hexDigitUpper d) = some d := by
  unfold hexDigitUpper hexVal
  by_cases h : d < 10
  · rw [if_pos h, if_pos (by omega)]
    congr 1
    omega
  · rw [if_neg h, if_neg (by omega), if_pos (by omega)]
    congr 1
    omega

theorem hexDigitUpper_range (d : Nat) (hd : d < 16) :
    (0x30 ≤ hexDigitUpper d ∧ hexDigitUpper d ≤ 0x39) ∨
    (0x41 ≤ hexDigitUpper d ∧ hexDigitUpper d ≤ 0x46) := by
  unfold hexDigitUpper
  by_cases h : d < 10
  · rw [if_pos h]
    omega
  · rw [if_neg h]
    omega

theorem utf8Enc_bytes_lt (c : Nat) (hc : c < 0x110000) :
    ∀ b ∈ utf8Enc c, b < 256 := by
  unfold utf8Enc
  split_ifs with h1 h2 h3 <;> intro b hb <;> simp only [List.mem_cons,
    List.mem_singleton, List.not_mem_nil, or_false] at hb <;> omega

theorem pctEncodeBytes_length (bs : List Nat) :
    (pctEncodeBytes bs).length = 3 * bs.length := by
  induction bs with
  | nil => rfl
  | cons b rest ih =>
    show (pctByte b ++ pctEncodeBytes rest).length = 3 * (b :: rest).length
    simp [pctByte, ih]
    omega

theorem pctDecodeStep_pctByte (b : Nat) (hb : b < 256) (tail : List Nat) :
    pctDecodeStep (hexDigitUpper (b / 16) :: hexDigitUpper (b % 16) :: tail)
      = some (b, tail) := by
  show (match hexVal (hexDigitUpper (b / 16)), hexVal (hexDigitUpper (b % 16)) with
    | some a, some b2 => some (a * 16 + b2, tail)
    | _, _ => none) = some (b, tail)
  rw [hexVal_hexDigitUpper (b / 16) (by omega), hexVal_hexDigitUpper (b % 16) (by omega)]
  show some (b / 16 * 16 + b % 16, tail) = some (b, tail)
  have h : b / 16 * 16 + b % 16 = b := by omega
  rw [h]

/-- Core unescape/escape inversion: the byte scan turns a percent-encoded
byte block followed by escaped text into those bytes followed by the UTF-8
bytes of the text. -/
theorem escapedBytesLoop_pct_qsEscape :
    ∀ (s : List Nat), validStr s = true →
    ∀ (bs : List Nat), (∀ b ∈ bs, b < 256) →
    ∀ fuel, 3 * bs.length + (qsEscape s).length ≤ fuel →
      escapedBytesLoop fuel (pctEncodeBytes bs ++ qsEscape s) = bs ++ utf8EncList s := by
  intro s
  induction s with
  | nil =>
    intro _ bs
    induction bs with
    | nil =>
      intro _ fuel _
      cases fuel <;> rfl
    | cons b bs2 ih =>
      intro hlt fuel hfuel
      have hb : b < 256 := hlt b (by simp)
      obtain ⟨f, rfl⟩ : ∃ f, fuel = f + 1 := by
        cases fuel with
        | zero =>
          exfalso
          simp at hfuel
        | succ n => exact ⟨n, rfl⟩
      show escapedBytesLoop (f + 1) (0x25 :: hexDigitUpper (b / 16)
        :: hexDigitUpper (b % 16) :: (pctEncodeBytes bs2 ++ qsEscape [])) = _
      rw [escapedBytesLoop, if_pos rfl, pctDecodeStep_pctByte b hb]
      show b :: escapedBytesLoop f (pctEncodeBytes bs2 ++ qsEscape [])
        = (b :: bs2) ++ utf8EncList []
      have hrec := ih (fun x hx => hlt x (by simp [hx])) f (by
        simp only [List.length_cons] at hfuel
        omega)
      rw [hrec]
      rfl
  | cons c rest ihs =>
    intro hv bs
    have hc : c < 0x110000 := by
      simp only [validStr, List.all_cons, Bool.and_eq_true, decide_eq_true_eq] at hv
      exact hv.1
    have hrest : validStr rest = true := by
      simp only [validStr, List.all_cons, Bool.and_eq_true, decide_eq_true_eq] at hv
      exact hv.2
    induction bs with
    | nil =>
      intro _ fuel hfuel
      have hq : qsEscape (c :: rest) = escChar c ++ qsEscape rest := rfl
      rw [hq] at hfuel
      show escapedBytesLoop fuel (escChar c ++ qsEscape rest) = utf8Enc c ++ utf8EncList rest
      by_cases hu : unreservedB c
      · have hesc : escChar c = [c] := by
          unfold escChar
          rw [if_pos hu]
        rw [hesc]
        rw [hesc] at hfuel
        obtain ⟨hne1, hne2, _, _⟩ := unreservedB_not_special c hu
        obtain ⟨f, rfl⟩ : ∃ f, fuel = f + 1 := by
          cases fuel with
          | zero =>
            exfalso
            simp at hfuel
          | succ n => exact ⟨n, rfl⟩
        show escapedBytesLoop (f + 1) (c :: qsEscape rest) = utf8Enc c ++ utf8EncList rest
        rw [escapedBytesLoop, if_neg hne1, if_neg hne2]
        have hrec := ihs hrest [] (by simp) f (by
          simp only [List.length_cons, List.length_append, List.length_nil] at hfuel ⊢
          omega)
        simp only [pctEncodeBytes, List.nil_append, List.length_nil] at hrec
        rw [hrec]
      · have hesc : escChar c = pctEncodeBytes (utf8Enc c) := by
          unfold escChar
          rw [if_neg hu]
        rw [hesc]
        rw [hesc] at hfuel
        have hrec := ihs hrest (utf8Enc c) (utf8Enc_bytes_lt c hc) fuel (by
          simp only [List.length_append, pctEncodeBytes_length, List.length_nil] at hfuel ⊢
          omega)
        rw [hrec]
    | cons b bs2 ih =>
      intro hlt fuel hfuel
      have hb : b < 256 := hlt b (by simp)
      obtain ⟨f, rfl⟩ : ∃ f, fuel = f + 1 := by
        cases fuel with
        | zero =>
          exfalso
          simp at hfuel
        | succ n => exact ⟨n, rfl⟩
      show escapedBytesLoop (f + 1) (0x25 :: hexDigitUpper (b / 16)
        :: hexDigitUpper (b % 16) :: (pctEncodeBytes bs2 ++ qsEscape (c :: rest))) = _
      rw [escapedBytesLoop, if_pos rfl, pctDecodeStep_pctByte b hb]
      show b :: escapedBytesLoop f (pctEncodeBytes bs2 ++ qsEscape (c :: rest))
        = (b :: bs2) ++ utf8EncList (c :: rest)
      have hrec := ih (fun x hx => hlt x (by simp [hx])) f (by
        simp only [List.length_cons] at hfuel
        omega)
      rw [hrec]
      rfl

/-- The unescape byte scan inverts `qsEscape` into the original UTF-8 bytes. -/
theorem escapedBytes_qsEscape (s : List Nat) (hs : validStr s = true) :
    escapedBytes (qsEscape s) = utf8EncList s := by
  unfold escapedBytes
  have h := escapedBytesLoop_pct_qsEscape s hs [] (by simp) (qsEscape s).length (by simp)
  simp only [pctEncodeBytes, List.nil_append] at h
  exact h

/-- Round trip of the full escape/unescape pair on any JavaScript string. -/
theorem qsUnescape_qsEscape (s : List Nat) (hs : validStr s = true) :
    qsUnescape (qsEscape s) = s := by
  unfold qsUnescape utf8Decode
  rw [escapedBytes_qsEscape s hs]
  exact utf8DecodeLoop_encList s hs _ le_rfl

/-- Characters of `qsEscape` output are unreserved, `%`, or hex digits;
in particular never `&` (0x26) or `=` (0x3D). -/
theorem qsEscape_no_sep (s : List Nat) (hs : validStr s = true) :
    ∀ c ∈ qsEscape s, c ≠ 0x26 ∧ c ≠ 0x3D := by
  induction s with
  | nil =>
    intro c hc
    simp [qsEscape] at hc
  | cons x rest ih =>
    simp only [validStr, List.all_cons, Bool.and_eq_true, decide_eq_true_eq] at hs
    have hx : x < 0x110000 := hs.1
    have hrest : validStr rest = true := hs.2
    intro c hc
    show c ≠ 0x26 ∧ c ≠ 0x3D
    have hmem : c ∈ escChar x ∨ c ∈ qsEscape rest := by
      have : qsEscape (x :: rest) = escChar x ++ qsEscape rest := rfl
      rw [this] at hc
      exact List.mem_append.mp hc
    rcases hmem with h | h
    · unfold escChar at h
      by_cases hu : unreservedB x
      · rw [if_pos hu] at h
        simp only [List.mem_singleton] at h
        subst h
        obtain ⟨_, _, h3, h4⟩ := unreservedB_not_special c hu
        exact ⟨h3, h4⟩
      · rw [if_neg hu] at h
        have hbytes := utf8Enc_bytes_lt x hx
        -- characters of pctEncodeBytes are % and hex digits
        have : ∀ bs, (∀ b ∈ bs, b < 256) → ∀ y ∈ pctEncodeBytes bs,
            y ≠ 0x26 ∧ y ≠ 0x3D := by
          intro bs
          induction bs with
          | nil =>
            intro _ y hy
            simp [pctEncodeBytes] at hy
          | cons b bs2 ih2 =>
            intro hlt y hy
            have hb : b < 256 := hlt b (by simp)
            have h16a : b / 16 < 16 := by omega
            have h16b : b % 16 < 16 := by omega
            show y ≠ 0x26 ∧ y ≠ 0x3D
            have : pctEncodeBytes (b :: bs2) = pctByte b ++ pctEncodeBytes bs2 := rfl
            rw [this] at hy
            rcases List.mem_append.mp hy with h' | h'
            · unfold pctByte at h'
              simp only [List.mem_cons, List.mem_singleton, List.not_mem_nil,
                or_false] at h'
              rcases h' with rfl | rfl | rfl
              · omega
              · rcases hexDigitUpper_range (b / 16) h16a with h'' | h'' <;> omega
              · rcases hexDigitUpper_range (b % 16) h16b with h'' | h'' <;> omega
            · exact ih2 (fun z hz => hlt z (by simp [hz])) y h'
        exact this (utf8Enc x) hbytes c h
    · exact ih hrest c h

/-- Strings of unreserved characters escape to themselves. -/
theorem qsEscape_unreserved (s : List Nat) (hs : s.all unreservedB = true) :
    qsEscape s = s := by
  induction s with
  | nil => rfl
  | cons c rest ih =>
    simp only [List.all_cons, Bool.and_eq_true] at hs
    show escChar c ++ qsEscape rest = c :: rest
    unfold escChar
    rw [if_pos hs.1, ih hs.2]
    rfl

theorem validStr_of_unreserved (s : List Nat) (hs : s.all unreservedB = true) :
    validStr s = true := by
  simp only [validStr, List.all_eq_true, decide_eq_true_eq]
  intro x hx
  simp only [List.all_eq_true] at hs
  have := unreservedB_lt x (hs x hx)
  omega

/-! ## JSON values, `JSON.stringify`, `JSON.parse`

JSON numbers are modelled as integers: the object/array/string/escape
structure is exact, while float literals (fractions, exponents) are outside
the embedding (the parser rejects them rather than misreading them). -/

inductive JVal where
  | null
  | bool (b : Bool)
  | num (n : Int)
  | str (s : List Nat)
  | arr (elems : List JVal)
  | obj (members : List (List Nat × JVal))
deriving Repr

/-- JSON whitespace. -/
def isWsB (c : Nat) : Bool := decide (c = 0x20 ∨ c = 0x09 ∨ c = 0x0A ∨ c = 0x0D)

def skipWs (s : List Nat) : List Nat := s.dropWhile isWsB

def isDigitB (c : Nat) : Bool := decide (0x30 ≤ c ∧ c ≤ 0x39)

/-- The continuation is safe after a printed number: it does not start
with a digit the number scanner would swallow. -/
def numSafeB : List Nat → Bool
  | [] => true
  | c :: _ => !isDigitB c

/-- Lowercase hex digit character for `d < 16` (as `JSON.stringify` emits). -/
def hexDigitLower (d : Nat) : Nat := if d < 10 then 0x30 + d else 0x61 + (d - 10)

/-- Value of a scanned run of decimal digit characters. -/
def digitsToNat (ds : List Nat) : Nat := ds.foldl (fun a c => a * 10 + (c - 0x30)) 0

/-- Fueled decimal printing of a natural number (big-endian digit chars). -/
def natToDigitsLoop : Nat → Nat → List Nat
  | 0, _ => []
  | fuel + 1, n =>
    if n < 10 then [0x30 + n] else natToDigitsLoop fuel (n / 10) ++ [0x30 + n % 10]

def natToDigits (n : Nat) : List Nat := natToDigitsLoop (n + 1) n

/-- Decimal printing of an integer, as `JSON.stringify` prints it. -/
def intRepr (n : Int) : List Nat :=
  if n < 0 then 0x2D :: natToDigits n.natAbs else natToDigits n.toNat

/-- Body of a JSON string literal as `JSON.stringify` escapes it:
quote and backslash escaped, the five short control escapes, `\u00XY`
for other control characters, everything else literal. -/
def escBody : List Nat → List Nat
  | [] => []
  | c :: rest =>
    (if c = 0x22 then [0x5C, 0x22]
     else if c = 0x5C then [0x5C, 0x5C]
     else if c = 0x08 then [0x5C, 0x62]
     else if c = 0x09 then [0x5C, 0x74]
     else if c = 0x0A then [0x5C, 0x6E]
     else if c = 0x0C then [0x5C, 0x66]
     else if c = 0x0D then [0x5C, 0x72]
     else if c < 0x20 then [0x5C, 0x75, 0x30, 0x30, hexDigitLower (c / 16), hexDigitLower (c % 16)]
     else [c]) ++ escBody rest

/-- A quoted JSON string literal. -/
def jsonQuote (s : List Nat) : List Nat := 0x22 :: escBody s ++ [0x22]

mutual

/-- Model of `JSON.stringify` (no spacing). -/
def jsonStringify : JVal → List Nat
  | .null => [0x6E, 0x75, 0x6C, 0x6C]
  | .bool true => [0x74, 0x72, 0x75, 0x65]
  | .bool false => [0x66, 0x61, 0x6C, 0x73, 0x65]
  | .num n => intRepr n
  | .str s => jsonQuote s
  | .arr xs => 0x5B :: jsonStringifyElems xs ++ [0x5D]
  | .obj ms => 0x7B :: jsonStringifyMembers ms ++ [0x7D]

def jsonStringifyElems : List JVal → List Nat
  | [] => []
  | x :: xs => jsonStringify x ++ jsonStringifyElemsTail xs

def jsonStringifyElemsTail : List JVal → List Nat
  | [] => []
  | x :: xs => 0x2C :: (jsonStringify x ++ jsonStringifyElemsTail xs)

def jsonStringifyMember : List Nat × JVal → List Nat
  | (k, v) => jsonQuote k ++ 0x3A :: jsonStringify v

def jsonStringifyMembers : List (List Nat × JVal) → List Nat
  | [] => []
  | m :: ms => jsonStringifyMember m ++ jsonStringifyMembersTail ms

def jsonStringifyMembersTail : List (List Nat × JVal) → List Nat
  | [] => []
  | m :: ms => 0x2C :: (jsonStringifyMember m ++ jsonStringifyMembersTail ms)

end

mutual

/-- Well-formedness of a JSON value: every string is a JavaScript string. -/
def validJVal : JVal → Bool
  | .null => true
  | .bool _ => true
  | .num _ => true
  | .str s => validStr s
  | .arr xs => validJValList xs
  | .obj ms => validJValMembers ms

def validJValList : List JVal → Bool
  | [] => true
  | x :: xs => validJVal x && validJValList xs

def validJValMembers : List (List Nat × JVal) → Bool
  | [] => true
  | m :: ms => validStr m.1 && validJVal m.2 && validJValMembers ms

end

def parseHex4 (a b c d : Nat) : Option Nat :=
  match hexVal a, hexVal b, hexVal c, hexVal d with
  | some x, some y, some z, some w => some (((x * 16 + y) * 16 + z) * 16 + w)
  | _, _, _, _ => none

/-- Fueled scanner for the body of a JSON string literal (after the opening
quote), returning the decoded string and the input after the closing
quote. `\uXYZW` escapes become the bare code unit (surrogate pairs are
not recombined; `JSON.stringify` output never needs them). -/
def escStep : List Nat → Option (Nat × List Nat)
  | [] => none
  | e :: r =>
    if e = 0x22 then some (0x22, r)
    else if e = 0x5C then some (0x5C, r)
    else if e = 0x2F then some (0x2F, r)
    else if e = 0x62 then some (0x08, r)
    else if e = 0x66 then some (0x0C, r)
    else if e = 0x6E then some (0x0A, r)
    else if e = 0x72 then some (0x0D, r)
    else if e = 0x74 then some (0x09, r)
    else if e = 0x75 then
      match r with
      | h1 :: h2 :: h3 :: h4 :: r2 =>
        match parseHex4 h1 h2 h3 h4 with
        | some v => some (v, r2)
        | none => none
      | _ => none
    else none

def parseStringBodyLoop : Nat → List Nat → Option (List Nat × List Nat)
  | 0, _ => none
  | _, [] => none
  | fuel + 1, c :: rest =>
    if c = 0x22 then some ([], rest)
    else if c = 0x5C then
      match escStep rest with
      | some (v, r) => (parseStringBodyLoop fuel r).map (fun p => (v :: p.1, p.2))
      | none => none
    else if c < 0x20 then none
    else (parseStringBodyLoop fuel rest).map (fun p => (c :: p.1, p.2))

/-- Scanner for a JSON string literal body. -/
def parseStringBody (s : List Nat) : Option (List Nat × List Nat) :=
  parseStringBodyLoop s.length s

/-- Scanner for a JSON integer literal (leading zeros rejected as in JSON). -/
def parseNat (s : List Nat) : Option (Nat × List Nat) :=
  match s with
  | [] => none
  | c :: rest =>
    if c = 0x30 then some (0, rest)
    else if isDigitB c then
      some (digitsToNat ((c :: rest).takeWhile isDigitB), (c :: rest).dropWhile isDigitB)
    else none

def parseNum (s : List Nat) : Option (JVal × List Nat) :=
  match s with
  | [] => none
  | c :: rest =>
    if c = 0x2D then
      match parseNat rest with
      | some (n, r) => some (.num (-(n : Int)), r)
      | none => none
    else
      match parseNat (c :: rest) with
      | some (n, r) => some (.num (n : Int), r)
      | none => none

mutual

/-- Fueled recursive-descent JSON value parser (model of `JSON.parse`,
restricted to integer numerals). -/
def parseVal : Nat → List Nat → Option (JVal × List Nat)
  | 0, _ => none
  | fuel + 1, s =>
    match skipWs s with
    | [] => none
    | c :: rest =>
      if c = 0x7B then parseObj fuel rest
      else if c = 0x5B then parseArr fuel rest
      else if c = 0x22 then (parseStringBody rest).map (fun p => (JVal.str p.1, p.2))
      else if c = 0x74 then
        match rest with
        | 0x72 :: 0x75 :: 0x65 :: r => some (.bool true, r)
        | _ => none
      else if c = 0x66 then
        match rest with
        | 0x61 :: 0x6C :: 0x73 :: 0x65 :: r => some (.bool false, r)
        | _ => none
      else if c = 0x6E then
        match rest with
        | 0x75 :: 0x6C :: 0x6C :: r => some (.null, r)
        | _ => none
      else if c = 0x2D ∨ isDigitB c = true then parseNum (c :: rest)
      else none

/-- After `[`. -/
def parseArr : Nat → List Nat → Option (JVal × List Nat)
  | 0, _ => none
  | fuel + 1, s =>
    match skipWs s with
    | [] => none
    | c :: r =>
      if c = 0x5D then some (.arr [], r)
      else
        match parseVal fuel (c :: r) with
        | some (v, r2) => parseArrRest fuel [v] r2
        | none => none

/-- After the first element of an array. -/
def parseArrRest : Nat → List JVal → List Nat → Option (JVal × List Nat)
  | 0, _, _ => none
  | fuel + 1, acc, s =>
    match skipWs s with
    | [] => none
    | c :: r =>
      if c = 0x2C then
        match parseVal fuel r with
        | some (v, r2) => parseArrRest fuel (acc ++ [v]) r2
        | none => none
      else if c = 0x5D then some (.arr acc, r)
      else none

/-- After `{`. -/
def parseObj : Nat → List Nat → Option (JVal × List Nat)
  | 0, _ => none
  | fuel + 1, s =>
    match skipWs s with
    | [] => none
    | c :: r =>
      if c = 0x7D then some (.obj [], r)
      else if c = 0x22 then
        match parseStringBody r with
        | some (k, r2) =>
          match skipWs r2 with
          | [] => none
          | c2 :: r3 =>
            if c2 = 0x3A then
              match parseVal fuel r3 with
              | some (v, r4) => parseObjRest fuel [(k, v)] r4
              | none => none
            else none
        | none => none
      else none

/-- After the first member of an object. -/
def parseObjRest : Nat → List (List Nat × JVal) → List Nat → Option (JVal × List Nat)
  | 0, _, _ => none
  | fuel + 1, acc, s =>
    match skipWs s with
    | [] => none
    | c :: r =>
      if c = 0x2C then
        match skipWs r with
        | [] => none
        | c1 :: r1 =>
          if c1 = 0x22 then
            match parseStringBody r1 with
            | some (k, r2) =>
              match skipWs r2 with
              | [] => none
              | c2 :: r3 =>
                if c2 = 0x3A then
                  match parseVal fuel r3 with
                  | some (v, r4) => parseObjRest fuel (acc ++ [(k, v)]) r4
                  | none => none
                else none
            | none => none
          else none
      else if c = 0x7D then some (.obj acc, r)
      else none

end

/-- Model of `JSON.parse`: a whole value, allowing trailing whitespace. -/
def jsonParse (s : List Nat) : Option JVal :=
  match parseVal (2 * s.length + 1) s with
  | some (v, r) => if (skipWs r).isEmpty then some v else none
  | none => none

theorem natToDigitsLoop_ne_nil (fuel n : Nat) (h : 0 < fuel) :
    natToDigitsLoop fuel n ≠ [] := by
  obtain ⟨f, rfl⟩ : ∃ f, fuel = f + 1 := by
    cases fuel with
    | zero => omega
    | succ m => exact ⟨m, rfl⟩
  rw [natToDigitsLoop]
  by_cases hn : n < 10
  · rw [if_pos hn]
    simp
  · rw [if_neg hn]
    simp

theorem natToDigitsLoop_digits (fuel n : Nat) :
    ∀ c ∈ natToDigitsLoop fuel n, 0x30 ≤ c ∧ c ≤ 0x39 := by
  induction fuel generalizing n with
  | zero =>
    intro c hc
    simp [natToDigitsLoop] at hc
  | succ f ih =>
    intro c hc
    rw [natToDigitsLoop] at hc
    by_cases hn : n < 10
    · rw [if_pos hn] at hc
      simp only [List.mem_singleton] at hc
      omega
    · rw [if_neg hn] at hc
      rcases List.mem_append.mp hc with h | h
      · exact ih (n / 10) c h
      · simp only [List.mem_singleton] at h
        have : n % 10 < 10 := by omega
        omega

theorem natToDigitsLoop_head_ne_zero (fuel : Nat) :
    ∀ n, 0 < n → n < 10 ^ fuel →
    ∀ c t, natToDigitsLoop fuel n = c :: t → c ≠ 0x30 := by
  induction fuel with
  | zero =>
    intro n hn hf c t h
    omega
  | succ f ih =>
    intro n hn hf c t h
    rw [natToDigitsLoop] at h
    by_cases hlt : n < 10
    · rw [if_pos hlt] at h
      have hc : c = 0x30 + n := by
        injection h with h1 _
        omega
      omega
    · rw [if_neg hlt] at h
      have hpos : 0 < n / 10 := by omega
      have hfd : n / 10 < 10 ^ f := by
        rw [pow_succ] at hf
        omega
      obtain ⟨c2, t2, h2⟩ : ∃ c2 t2, natToDigitsLoop f (n / 10) = c2 :: t2 := by
        have hf0 : 0 < f := by
          by_contra h0
          have : f = 0 := by omega
          subst this
          simp at hfd
          omega
        cases hx : natToDigitsLoop f (n / 10) with
        | nil => exact absurd hx (natToDigitsLoop_ne_nil f (n / 10) hf0)
        | cons a b => exact ⟨a, b, rfl⟩
      rw [h2, List.cons_append] at h
      have hcc : c2 = c := by
        injection h with h1 _
      rw [← hcc]
      exact ih (n / 10) hpos hfd c2 t2 h2

theorem natToDigitsLoop_foldl (fuel : Nat) :
    ∀ n a, n < 10 ^ fuel → 0 < fuel →
      (natToDigitsLoop fuel n).foldl (fun acc c => acc * 10 + (c - 0x30)) a
        = a * 10 ^ (natToDigitsLoop fuel n).length + n := by
  induction fuel with
  | zero =>
    intro n a _ h
    omega
  | succ f ih =>
    intro n a hn _
    rw [natToDigitsLoop]
    by_cases hlt : n < 10
    · rw [if_pos hlt]
      show a * 10 + (0x30 + n - 0x30) = a * 10 ^ ([0x30 + n].length) + n
      simp only [List.length_singleton, pow_one]
      omega
    · rw [if_neg hlt]
      have hf : 0 < f := by
        by_contra hf0
        have : f = 0 := by omega
        subst this
        simp at hn
        omega
      have hdiv : n / 10 < 10 ^ f := by
        rw [pow_succ] at hn
        omega
      rw [List.foldl_append]
      rw [ih (n / 10) a hdiv hf]
      simp only [List.foldl_cons, List.foldl_nil, List.length_append,
        List.length_singleton]
      rw [pow_succ]
      have h1 : 0x30 + n % 10 - 0x30 = n % 10 := by omega
      rw [h1]
      have h2 : n % 10 < 10 := by omega
      ring_nf
      omega

theorem natToDigits_value (n : Nat) : digitsToNat (natToDigits n) = n := by
  unfold digitsToNat natToDigits
  have hpow : n < 10 ^ (n + 1) := by
    calc n < 10 ^ n := Nat.lt_pow_self (by omega) n
    _ ≤ 10 ^ (n + 1) := Nat.pow_le_pow_right (by omega) (by omega)
  have := natToDigitsLoop_foldl (n + 1) n 0 hpow (by omega)
  rw [this]
  simp

theorem natToDigits_digits (n : Nat) :
    ∀ c ∈ natToDigits n, 0x30 ≤ c ∧ c ≤ 0x39 :=
  natToDigitsLoop_digits (n + 1) n

theorem natToDigits_ne_nil (n : Nat) : natToDigits n ≠ [] :=
  natToDigitsLoop_ne_nil (n + 1) n (by omega)

theorem natToDigits_head_ne_zero (n : Nat) (hn : 0 < n) :
    ∀ c t, natToDigits n = c :: t → c ≠ 0x30 :=
  natToDigitsLoop_head_ne_zero (n + 1) n hn
    (by
      calc n < 10 ^ n := Nat.lt_pow_self (by omega) n
      _ ≤ 10 ^ (n + 1) := Nat.pow_le_pow_right (by omega) (by omega))

theorem natToDigits_zero : natToDigits 0 = [0x30] := rfl

theorem takeWhile_all_append (p : Nat → Bool) (ds rest : List Nat)
    (hds : ∀ c ∈ ds, p c = true)
    (hrest : rest = [] ∨ ∃ c t, rest = c :: t ∧ p c = false) :
    (ds ++ rest).takeWhile p = ds ∧ (ds ++ rest).dropWhile p = rest := by
  induction ds with
  | nil =>
    simp only [List.nil_append]
    rcases hrest with rfl | ⟨c, t, rfl, hc⟩
    · simp
    · simp [List.takeWhile_cons, List.dropWhile_cons, hc]
  | cons d ds2 ih =>
    have hd : p d = true := hds d (by simp)
    have h2 := ih (fun c hc => hds c (by simp [hc]))
    simp only [List.cons_append, List.takeWhile_cons, List.dropWhile_cons, hd]
    simp only [if_true]
    exact ⟨by rw [h2.1], by rw [h2.2]⟩

theorem parseNat_natToDigits (n : Nat) (rest : List Nat) (hrest : numSafeB rest = true) :
    parseNat (natToDigits n ++ rest) = some (n, rest) := by
  have hdig := natToDigits_digits n
  have hsafe : rest = [] ∨ ∃ c t, rest = c :: t ∧ isDigitB c = false := by
    cases rest with
    | nil => exact Or.inl rfl
    | cons c t =>
      refine Or.inr ⟨c, t, rfl, ?_⟩
      simp only [numSafeB, Bool.not_eq_true'] at hrest
      exact hrest
  by_cases hn : n = 0
  · subst hn
    rw [natToDigits_zero]
    show parseNat (0x30 :: rest) = some (0, rest)
    rw [parseNat]
    rw [if_pos rfl]
  · obtain ⟨c, t, hct⟩ : ∃ c t, natToDigits n = c :: t := by
      cases hx : natToDigits n with
      | nil => exact absurd hx (natToDigits_ne_nil n)
      | cons a b => exact ⟨a, b, rfl⟩
    have hcne := natToDigits_head_ne_zero n (by omega) c t hct
    have hcd : isDigitB c = true := by
      have := hdig c (by rw [hct]; simp)
      simp only [isDigitB, decide_eq_true_eq]
      omega
    rw [hct]
    show parseNat (c :: (t ++ rest)) = some (n, rest)
    rw [parseNat]
    rw [if_neg hcne, if_pos hcd]
    have htw := takeWhile_all_append isDigitB (c :: t) rest
      (by
        intro x hx
        have := hdig x (by rw [hct]; exact hx)
        simp only [isDigitB, decide_eq_true_eq]
        omega)
      hsafe
    have hw1 : (c :: (t ++ rest)).takeWhile isDigitB = c :: t := by
      have : c :: (t ++ rest) = (c :: t) ++ rest := rfl
      rw [this, htw.1]
    have hw2 : (c :: (t ++ rest)).dropWhile isDigitB = rest := by
      have : c :: (t ++ rest) = (c :: t) ++ rest := rfl
      rw [this, htw.2]
    rw [hw1, hw2]
    have hv : digitsToNat (c :: t) = n := by
      have := natToDigits_value n
      rw [hct] at this
      exact this
    rw [hv]

theorem intRepr_head_digit_or_minus (n : Int) :
    ∃ c t, intRepr n = c :: t ∧ (c = 0x2D ∨ (0x30 ≤ c ∧ c ≤ 0x39)) := by
  unfold intRepr
  by_cases hn : n < 0
  · rw [if_pos hn]
    exact ⟨0x2D, natToDigits n.natAbs, rfl, Or.inl rfl⟩
  · rw [if_neg hn]
    obtain ⟨c, t, hct⟩ : ∃ c t, natToDigits n.toNat = c :: t := by
      cases hx : natToDigits n.toNat with
      | nil => exact absurd hx (natToDigits_ne_nil _)
      | cons a b => exact ⟨a, b, rfl⟩
    exact ⟨c, t, hct, Or.inr (natToDigits_digits n.toNat c (by rw [hct]; simp))⟩

theorem parseNum_intRepr (n : Int) (rest : List Nat) (hrest : numSafeB rest = true) :
    parseNum (intRepr n ++ rest) = some (.num n, rest) := by
  unfold intRepr
  by_cases hn : n < 0
  · rw [if_pos hn]
    show parseNum (0x2D :: (natToDigits n.natAbs ++ rest)) = some (.num n, rest)
    rw [parseNum]
    rw [if_pos rfl, parseNat_natToDigits n.natAbs rest hrest]
    show some (JVal.num (-(n.natAbs : Int)), rest) = some (.num n, rest)
    have h : -(n.natAbs : Int) = n := by omega
    rw [h]
  · rw [if_neg hn]
    obtain ⟨c, t, hct⟩ : ∃ c t, natToDigits n.toNat = c :: t := by
      cases hx : natToDigits n.toNat with
      | nil => exact absurd hx (natToDigits_ne_nil _)
      | cons a b => exact ⟨a, b, rfl⟩
    have hcd := natToDigits_digits n.toNat c (by rw [hct]; simp)
    rw [hct]
    show parseNum (c :: (t ++ rest)) = some (.num n, rest)
    rw [parseNum]
    rw [if_neg (by omega)]
    have hback : c :: (t ++ rest) = (c :: t) ++ rest := rfl
    rw [hback, ← hct, parseNat_natToDigits n.toNat rest hrest]
    show some (JVal.num ((n.toNat : Nat) : Int), rest) = some (.num n, rest)
    have h : ((n.toNat : Nat) : Int) = n := by omega
    rw [h]


theorem hexVal_hexDigitLower (d : Nat) (hd : d < 16) :
    hexVal (hexDigitLower d) = some d := by
  unfold hexDigitLower hexVal
  by_cases h : d < 10
  · rw [if_pos h, if_pos (by omega)]
    congr 1
    omega
  · rw [if_neg h, if_neg (by omega), if_neg (by omega), if_pos (by omega)]
    congr 1
    omega


theorem psbLoop_quote (f : Nat) (rest : List Nat) :
    parseStringBodyLoop (f + 1) (0x22 :: rest) = some ([], rest) := rfl

theorem psbLoop_esc (f : Nat) (rest : List Nat) (v : Nat) (r : List Nat)
    (h : escStep rest = some (v, r)) :
    parseStringBodyLoop (f + 1) (0x5C :: rest)
      = (parseStringBodyLoop f r).map (fun p => (v :: p.1, p.2)) := by
  show (match escStep rest with
    | some (v, r) => (parseStringBodyLoop f r).map (fun p => (v :: p.1, p.2))
    | none => none) = (parseStringBodyLoop f r).map (fun p => (v :: p.1, p.2))
  rw [h]

theorem psbLoop_plain (f c : Nat) (h1 : c ≠ 0x22) (h2 : c ≠ 0x5C)
    (h3 : ¬ c < 0x20) (r : List Nat) :
    parseStringBodyLoop (f + 1) (c :: r)
      = (parseStringBodyLoop f r).map (fun p => (c :: p.1, p.2)) := by
  rw [parseStringBodyLoop, if_neg h1, if_neg h2, if_neg h3]

theorem escStep_u (h1 h2 h3 h4 : Nat) (r : List Nat) :
    escStep (0x75 :: h1 :: h2 :: h3 :: h4 :: r)
      = (match parseHex4 h1 h2 h3 h4 with
         | some v => some (v, r)
         | none => none) := rfl

theorem psbLoop_escBody (s : List Nat) :
    ∀ rest fuel, (escBody s ++ 0x22 :: rest).length ≤ fuel →
      parseStringBodyLoop fuel (escBody s ++ 0x22 :: rest) = some (s, rest) := by
  induction s with
  | nil =>
    intro rest fuel hfuel
    have he : escBody [] ++ 0x22 :: rest = 0x22 :: rest := rfl
    rw [he] at hfuel ⊢
    simp only [List.length_cons] at hfuel
    obtain ⟨f, rfl⟩ : ∃ f, fuel = f + 1 := by
      cases fuel with
      | zero =>
        exfalso
        omega
      | succ n => exact ⟨n, rfl⟩
    exact psbLoop_quote f rest
  | cons c s2 ih =>
    intro rest fuel hfuel
    have hstep : escBody (c :: s2) = (if c = 0x22 then [0x5C, 0x22]
      else if c = 0x5C then [0x5C, 0x5C]
      else if c = 0x08 then [0x5C, 0x62]
      else if c = 0x09 then [0x5C, 0x74]
      else if c = 0x0A then [0x5C, 0x6E]
      else if c = 0x0C then [0x5C, 0x66]
      else if c = 0x0D then [0x5C, 0x72]
      else if c < 0x20 then [0x5C, 0x75, 0x30, 0x30, hexDigitLower (c / 16),
        hexDigitLower (c % 16)]
      else [c]) ++ escBody s2 := rfl
    rw [hstep] at hfuel ⊢
    obtain ⟨f, rfl⟩ : ∃ f, fuel = f + 1 := by
      cases fuel with
      | zero =>
        exfalso
        simp only [List.length_append, List.length_cons] at hfuel
        omega
      | succ n => exact ⟨n, rfl⟩
    by_cases h1 : c = 0x22
    · subst h1
      rw [if_pos rfl] at hfuel ⊢
      have hfs : (escBody s2 ++ 0x22 :: rest).length ≤ f := by
        simp only [List.cons_append, List.nil_append, List.length_cons] at hfuel
        omega
      show parseStringBodyLoop (f + 1) (0x5C :: (0x22 :: (escBody s2 ++ 0x22 :: rest)))
        = some (0x22 :: s2, rest)
      rw [psbLoop_esc f (0x22 :: (escBody s2 ++ 0x22 :: rest)) 0x22
        (escBody s2 ++ 0x22 :: rest) rfl, ih rest f hfs]
      rfl
    · rw [if_neg h1] at hfuel ⊢
      by_cases h2 : c = 0x5C
      · subst h2
        rw [if_pos rfl] at hfuel ⊢
        have hfs : (escBody s2 ++ 0x22 :: rest).length ≤ f := by
          simp only [List.cons_append, List.nil_append, List.length_cons] at hfuel
          omega
        show parseStringBodyLoop (f + 1) (0x5C :: (0x5C :: (escBody s2 ++ 0x22 :: rest)))
          = some (0x5C :: s2, rest)
        rw [psbLoop_esc f (0x5C :: (escBody s2 ++ 0x22 :: rest)) 0x5C
          (escBody s2 ++ 0x22 :: rest) rfl, ih rest f hfs]
        rfl
      · rw [if_neg h2] at hfuel ⊢
        by_cases h3 : c = 0x08
        · subst h3
          rw [if_pos rfl] at hfuel ⊢
          have hfs : (escBody s2 ++ 0x22 :: rest).length ≤ f := by
            simp only [List.cons_append, List.nil_append, List.length_cons] at hfuel
            omega
          show parseStringBodyLoop (f + 1) (0x5C :: (0x62 :: (escBody s2 ++ 0x22 :: rest)))
            = some (0x08 :: s2, rest)
          rw [psbLoop_esc f (0x62 :: (escBody s2 ++ 0x22 :: rest)) 0x08
            (escBody s2 ++ 0x22 :: rest) rfl, ih rest f hfs]
          rfl
        · rw [if_neg h3] at hfuel ⊢
          by_cases h4 : c = 0x09
          · subst h4
            rw [if_pos rfl] at hfuel ⊢
            have hfs : (escBody s2 ++ 0x22 :: rest).length ≤ f := by
              simp only [List.cons_append, List.nil_append, List.length_cons] at hfuel
              omega
            show parseStringBodyLoop (f + 1)
              (0x5C :: (0x74 :: (escBody s2 ++ 0x22 :: rest))) = some (0x09 :: s2, rest)
            rw [psbLoop_esc f (0x74 :: (escBody s2 ++ 0x22 :: rest)) 0x09
              (escBody s2 ++ 0x22 :: rest) rfl, ih rest f hfs]
            rfl
          · rw [if_neg h4] at hfuel ⊢
            by_cases h5 : c = 0x0A
            · subst h5
              rw [if_pos rfl] at hfuel ⊢
              have hfs : (escBody s2 ++ 0x22 :: rest).length ≤ f := by
                simp only [List.cons_append, List.nil_append, List.length_cons] at hfuel
                omega
              show parseStringBodyLoop (f + 1)
                (0x5C :: (0x6E :: (escBody s2 ++ 0x22 :: rest))) = some (0x0A :: s2, rest)
              rw [psbLoop_esc f (0x6E :: (escBody s2 ++ 0x22 :: rest)) 0x0A
                (escBody s2 ++ 0x22 :: rest) rfl, ih rest f hfs]
              rfl
            · rw [if_neg h5] at hfuel ⊢
              by_cases h6 : c = 0x0C
              · subst h6
                rw [if_pos rfl] at hfuel ⊢
                have hfs : (escBody s2 ++ 0x22 :: rest).length ≤ f := by
                  simp only [List.cons_append, List.nil_append, List.length_cons] at hfuel
                  omega
                show parseStringBodyLoop (f + 1)
                  (0x5C :: (0x66 :: (escBody s2 ++ 0x22 :: rest))) = some (0x0C :: s2, rest)
                rw [psbLoop_esc f (0x66 :: (escBody s2 ++ 0x22 :: rest)) 0x0C
                  (escBody s2 ++ 0x22 :: rest) rfl, ih rest f hfs]
                rfl
              · rw [if_neg h6] at hfuel ⊢
                by_cases h7 : c = 0x0D
                · subst h7
                  rw [if_pos rfl] at hfuel ⊢
                  have hfs : (escBody s2 ++ 0x22 :: rest).length ≤ f := by
                    simp only [List.cons_append, List.nil_append, List.length_cons] at hfuel
                    omega
                  show parseStringBodyLoop (f + 1)
                    (0x5C :: (0x72 :: (escBody s2 ++ 0x22 :: rest))) = some (0x0D :: s2, rest)
                  rw [psbLoop_esc f (0x72 :: (escBody s2 ++ 0x22 :: rest)) 0x0D
                    (escBody s2 ++ 0x22 :: rest) rfl, ih rest f hfs]
                  rfl
                · rw [if_neg h7] at hfuel ⊢
                  by_cases h8 : c < 0x20
                  · rw [if_pos h8] at hfuel ⊢
                    have hfs : (escBody s2 ++ 0x22 :: rest).length ≤ f := by
                      simp only [List.cons_append, List.nil_append, List.length_cons]
                        at hfuel
                      omega
                    show parseStringBodyLoop (f + 1) (0x5C :: (0x75 :: 0x30 :: 0x30
                      :: hexDigitLower (c / 16) :: hexDigitLower (c % 16)
                      :: (escBody s2 ++ 0x22 :: rest))) = some (c :: s2, rest)
                    have hh : parseHex4 0x30 0x30 (hexDigitLower (c / 16))
                        (hexDigitLower (c % 16)) = some c := by
                      unfold parseHex4
                      rw [show hexVal 0x30 = some 0 from rfl]
                      rw [hexVal_hexDigitLower (c / 16) (by omega),
                        hexVal_hexDigitLower (c % 16) (by omega)]
                      show some (((0 * 16 + 0) * 16 + c / 16) * 16 + c % 16) = some c
                      congr 1
                      omega
                    have hes : escStep (0x75 :: 0x30 :: 0x30 :: hexDigitLower (c / 16)
                        :: hexDigitLower (c % 16) :: (escBody s2 ++ 0x22 :: rest))
                        = some (c, escBody s2 ++ 0x22 :: rest) := by
                      rw [escStep_u, hh]
                    rw [psbLoop_esc f _ c _ hes, ih rest f hfs]
                    rfl
                  · rw [if_neg h8] at hfuel ⊢
                    have hfs : (escBody s2 ++ 0x22 :: rest).length ≤ f := by
                      simp only [List.cons_append, List.nil_append, List.length_cons]
                        at hfuel
                      omega
                    show parseStringBodyLoop (f + 1) (c :: (escBody s2 ++ 0x22 :: rest))
                      = some (c :: s2, rest)
                    rw [psbLoop_plain f c h1 h2 h8, ih rest f hfs]
                    rfl

/-- The string scanner inverts `JSON.stringify` string escaping. -/
theorem parseStringBody_escBody (s : List Nat) (rest : List Nat) :
    parseStringBody (escBody s ++ 0x22 :: rest) = some (s, rest) :=
  psbLoop_escBody s rest _ le_rfl

theorem skipWs_cons (c : Nat) (t : List Nat) (h : isWsB c = false) :
    skipWs (c :: t) = c :: t := by
  simp [skipWs, List.dropWhile_cons, h]

theorem isWsB_false (c : Nat) (h : c ≠ 0x20 ∧ c ≠ 0x09 ∧ c ≠ 0x0A ∧ c ≠ 0x0D) :
    isWsB c = false := by
  simp only [isWsB, decide_eq_false_iff_not]
  tauto

/-- Every printed JSON value starts with a specific non-whitespace,
non-delimiter character. -/
theorem jsonStringify_head_spec (v : JVal) :
    ∃ c t, jsonStringify v = c :: t ∧ isWsB c = false ∧ c ≠ 0x5D ∧ c ≠ 0x7D := by
  cases v with
  | null => exact ⟨0x6E, _, rfl, by decide, by decide, by decide⟩
  | bool b =>
    cases b with
    | true => exact ⟨0x74, _, rfl, by decide, by decide, by decide⟩
    | false => exact ⟨0x66, _, rfl, by decide, by decide, by decide⟩
  | num n =>
    obtain ⟨c, t, hct, hcd⟩ := intRepr_head_digit_or_minus n
    refine ⟨c, t, hct, isWsB_false c (by omega), by omega, by omega⟩
  | str s => exact ⟨0x22, _, rfl, by decide, by decide, by decide⟩
  | arr xs => exact ⟨0x5B, _, rfl, by decide, by decide, by decide⟩
  | obj ms => exact ⟨0x7B, _, rfl, by decide, by decide, by decide⟩

theorem numSafeB_elemsTail (xs : List JVal) (rest : List Nat) :
    numSafeB (jsonStringifyElemsTail xs ++ 0x5D :: rest) = true := by
  cases xs <;> rfl

theorem numSafeB_membersTail (ms : List (List Nat × JVal)) (rest : List Nat) :
    numSafeB (jsonStringifyMembersTail ms ++ 0x7D :: rest) = true := by
  cases ms <;> rfl

theorem validJValList_cons (x : JVal) (xs : List JVal)
    (h : validJValList (x :: xs) = true) :
    validJVal x = true ∧ validJValList xs = true := by
  have he : validJValList (x :: xs) = (validJVal x && validJValList xs) := rfl
  rw [he] at h
  exact ⟨(Bool.and_eq_true _ _ ▸ h).1, (Bool.and_eq_true _ _ ▸ h).2⟩

theorem validJValMembers_cons (m : List Nat × JVal) (ms : List (List Nat × JVal))
    (h : validJValMembers (m :: ms) = true) :
    validStr m.1 = true ∧ validJVal m.2 = true ∧ validJValMembers ms = true := by
  have he : validJValMembers (m :: ms)
      = (validStr m.1 && validJVal m.2 && validJValMembers ms) := rfl
  rw [he] at h
  simp only [Bool.and_eq_true] at h
  exact ⟨h.1.1, h.1.2, h.2⟩

theorem jsonStringify_length_pos (v : JVal) : 0 < (jsonStringify v).length := by
  obtain ⟨c, t, hct, _, _, _⟩ := jsonStringify_head_spec v
  rw [hct]
  simp

/-- The recursive-descent parser inverts `jsonStringify`: mutual statement
for values, array tails and object tails, by strong induction on fuel. -/
theorem parse_roundtrip_aux : ∀ fuel : Nat,
    (∀ (v : JVal) (rest : List Nat), validJVal v = true → numSafeB rest = true →
      2 * (jsonStringify v ++ rest).length + 1 ≤ fuel →
      parseVal fuel (jsonStringify v ++ rest) = some (v, rest))
  ∧ (∀ (xs acc : List JVal) (rest : List Nat), validJValList xs = true →
      2 * (jsonStringifyElemsTail xs ++ 0x5D :: rest).length + 1 ≤ fuel →
      parseArrRest fuel acc (jsonStringifyElemsTail xs ++ 0x5D :: rest)
        = some (JVal.arr (acc ++ xs), rest))
  ∧ (∀ (ms acc : List (List Nat × JVal)) (rest : List Nat),
      validJValMembers ms = true →
      2 * (jsonStringifyMembersTail ms ++ 0x7D :: rest).length + 1 ≤ fuel →
      parseObjRest fuel acc (jsonStringifyMembersTail ms ++ 0x7D :: rest)
        = some (JVal.obj (acc ++ ms), rest)) := by
  intro fuel
  induction fuel using Nat.strong_induction_on with
  | _ fuel ih =>
  refine ⟨?_, ?_, ?_⟩
  · -- values
    intro v rest hv hsafe hfuel
    obtain ⟨F, rfl⟩ : ∃ F, fuel = F + 1 := by
      cases fuel with
      | zero => exact absurd hfuel (by omega)
      | succ n => exact ⟨n, rfl⟩
    cases v with
    | null =>
      show parseVal (F + 1) (0x6E :: 0x75 :: 0x6C :: 0x6C :: rest) = some (JVal.null, rest)
      rfl
    | bool b =>
      cases b with
      | true =>
        show parseVal (F + 1) (0x74 :: 0x72 :: 0x75 :: 0x65 :: rest)
          = some (JVal.bool true, rest)
        rfl
      | false =>
        show parseVal (F + 1) (0x66 :: 0x61 :: 0x6C :: 0x73 :: 0x65 :: rest)
          = some (JVal.bool false, rest)
        rfl
    | str s =>
      have he : jsonStringify (JVal.str s) ++ rest = 0x22 :: (escBody s ++ 0x22 :: rest) := by
        show (0x22 :: (escBody s ++ [0x22])) ++ rest = _
        simp [List.append_assoc]
      rw [he]
      have h1 : parseVal (F + 1) (0x22 :: (escBody s ++ 0x22 :: rest))
          = (parseStringBody (escBody s ++ 0x22 :: rest)).map
            (fun p : List Nat × List Nat => (JVal.str p.1, p.2)) := rfl
      rw [h1, parseStringBody_escBody]
      rfl
    | num n =>
      obtain ⟨c, t, hct, hcd⟩ := intRepr_head_digit_or_minus n
      have hin : jsonStringify (JVal.num n) ++ rest = c :: (t ++ rest) := by
        show intRepr n ++ rest = _
        rw [hct]
        rfl
      rw [hin]
      have hws : isWsB c = false := isWsB_false c (by omega)
      have h1 : parseVal (F + 1) (c :: (t ++ rest)) =
          (if c = 0x7B then parseObj F (t ++ rest)
           else if c = 0x5B then parseArr F (t ++ rest)
           else if c = 0x22 then (parseStringBody (t ++ rest)).map
             (fun p : List Nat × List Nat => (JVal.str p.1, p.2))
           else if c = 0x74 then
             (match t ++ rest with
              | 0x72 :: 0x75 :: 0x65 :: r => some (JVal.bool true, r)
              | _ => none)
           else if c = 0x66 then
             (match t ++ rest with
              | 0x61 :: 0x6C :: 0x73 :: 0x65 :: r => some (JVal.bool false, r)
              | _ => none)
           else if c = 0x6E then
             (match t ++ rest with
              | 0x75 :: 0x6C :: 0x6C :: r => some (JVal.null, r)
              | _ => none)
           else if c = 0x2D ∨ isDigitB c = true then parseNum (c :: (t ++ rest))
           else none) := by
        show (match skipWs (c :: (t ++ rest)) with
          | [] => none
          | c' :: rest' =>
            if c' = 0x7B then parseObj F rest'
            else if c' = 0x5B then parseArr F rest'
            else if c' = 0x22 then (parseStringBody rest').map
              (fun p : List Nat × List Nat => (JVal.str p.1, p.2))
            else if c' = 0x74 then
              (match rest' with
               | 0x72 :: 0x75 :: 0x65 :: r => some (JVal.bool true, r)
               | _ => none)
            else if c' = 0x66 then
              (match rest' with
               | 0x61 :: 0x6C :: 0x73 :: 0x65 :: r => some (JVal.bool false, r)
               | _ => none)
            else if c' = 0x6E then
              (match rest' with
               | 0x75 :: 0x6C :: 0x6C :: r => some (JVal.null, r)
               | _ => none)
            else if c' = 0x2D ∨ isDigitB c' = true then parseNum (c' :: rest')
            else none) = _
        rw [skipWs_cons c (t ++ rest) hws]
      rw [h1]
      rw [if_neg (by omega), if_neg (by omega), if_neg (by omega), if_neg (by omega),
        if_neg (by omega), if_neg (by omega), if_pos (by
          rcases hcd with h | h
          · exact Or.inl h
          · exact Or.inr (by
              simp only [isDigitB, decide_eq_true_eq]
              omega))]
      have hb : c :: (t ++ rest) = intRepr n ++ rest := by
        rw [hct]
        rfl
      rw [hb]
      exact parseNum_intRepr n rest hsafe
    | arr xs =>
      have he : jsonStringify (JVal.arr xs) ++ rest
          = 0x5B :: (jsonStringifyElems xs ++ 0x5D :: rest) := by
        show (0x5B :: (jsonStringifyElems xs ++ [0x5D])) ++ rest = _
        simp [List.append_assoc]
      rw [he] at hfuel ⊢
      have h1 : parseVal (F + 1) (0x5B :: (jsonStringifyElems xs ++ 0x5D :: rest))
          = parseArr F (jsonStringifyElems xs ++ 0x5D :: rest) := rfl
      rw [h1]
      obtain ⟨G, rfl⟩ : ∃ G, F = G + 1 := by
        cases F with
        | zero =>
          exfalso
          simp only [List.length_cons, List.length_append] at hfuel
          omega
        | succ n => exact ⟨n, rfl⟩
      cases xs with
      | nil =>
        show parseArr (G + 1) (0x5D :: rest) = some (JVal.arr [], rest)
        rfl
      | cons x xs2 =>
        have hv' : validJValList (x :: xs2) = true := hv
        obtain ⟨hvx, hvxs⟩ := validJValList_cons x xs2 hv'
        obtain ⟨c, t, hct, hws, hne5D, _⟩ := jsonStringify_head_spec x
        have hlx : (jsonStringify x).length = t.length + 1 := by
          rw [hct]
          rfl
        have he2 : jsonStringifyElems (x :: xs2) ++ 0x5D :: rest
            = c :: (t ++ (jsonStringifyElemsTail xs2 ++ 0x5D :: rest)) := by
          show (jsonStringify x ++ jsonStringifyElemsTail xs2) ++ 0x5D :: rest = _
          rw [hct]
          simp [List.append_assoc]
        rw [he2] at hfuel ⊢
        have h2 : parseArr (G + 1)
            (c :: (t ++ (jsonStringifyElemsTail xs2 ++ 0x5D :: rest)))
            = (if c = 0x5D then
                some (JVal.arr [], t ++ (jsonStringifyElemsTail xs2 ++ 0x5D :: rest))
              else
                match parseVal G
                  (c :: (t ++ (jsonStringifyElemsTail xs2 ++ 0x5D :: rest))) with
                | some (v, r2) => parseArrRest G [v] r2
                | none => none) := by
          show (match skipWs
              (c :: (t ++ (jsonStringifyElemsTail xs2 ++ 0x5D :: rest))) with
            | [] => none
            | c' :: r =>
              if c' = 0x5D then some (JVal.arr [], r)
              else
                match parseVal G (c' :: r) with
                | some (v, r2) => parseArrRest G [v] r2
                | none => none) = _
          rw [skipWs_cons _ _ hws]
        rw [h2, if_neg hne5D]
        have hback : c :: (t ++ (jsonStringifyElemsTail xs2 ++ 0x5D :: rest))
            = jsonStringify x ++ (jsonStringifyElemsTail xs2 ++ 0x5D :: rest) := by
          rw [hct]
          rfl
        rw [hback]
        have hA := (ih G (by omega)).1 x (jsonStringifyElemsTail xs2 ++ 0x5D :: rest)
          hvx (numSafeB_elemsTail xs2 rest) (by
            simp only [List.length_cons, List.length_append] at hfuel ⊢
            omega)
        rw [hA]
        show parseArrRest G [x] (jsonStringifyElemsTail xs2 ++ 0x5D :: rest)
          = some (JVal.arr (x :: xs2), rest)
        have hB := (ih G (by omega)).2.1 xs2 [x] rest hvxs (by
          simp only [List.length_cons, List.length_append] at hfuel ⊢
          omega)
        rw [hB]
        rfl
    | obj ms =>
      have he : jsonStringify (JVal.obj ms) ++ rest
          = 0x7B :: (jsonStringifyMembers ms ++ 0x7D :: rest) := by
        show (0x7B :: (jsonStringifyMembers ms ++ [0x7D])) ++ rest = _
        simp [List.append_assoc]
      rw [he] at hfuel ⊢
      have h1 : parseVal (F + 1) (0x7B :: (jsonStringifyMembers ms ++ 0x7D :: rest))
          = parseObj F (jsonStringifyMembers ms ++ 0x7D :: rest) := rfl
      rw [h1]
      obtain ⟨G, rfl⟩ : ∃ G, F = G + 1 := by
        cases F with
        | zero =>
          exfalso
          simp only [List.length_cons, List.length_append] at hfuel
          omega
        | succ n => exact ⟨n, rfl⟩
      cases ms with
      | nil =>
        show parseObj (G + 1) (0x7D :: rest) = some (JVal.obj [], rest)
        rfl
      | cons m ms2 =>
        obtain ⟨k, v⟩ := m
        have hv' : validJValMembers ((k, v) :: ms2) = true := hv
        obtain ⟨hvk, hvv, hvms⟩ := validJValMembers_cons (k, v) ms2 hv'
        have he2 : jsonStringifyMembers ((k, v) :: ms2) ++ 0x7D :: rest
            = 0x22 :: (escBody k ++ 0x22 :: (0x3A :: (jsonStringify v
              ++ (jsonStringifyMembersTail ms2 ++ 0x7D :: rest)))) := by
          show ((0x22 :: (escBody k ++ [0x22])) ++ 0x3A :: jsonStringify v
            ++ jsonStringifyMembersTail ms2) ++ 0x7D :: rest = _
          simp [List.append_assoc]
        rw [he2] at hfuel ⊢
        have h2 : parseObj (G + 1) (0x22 :: (escBody k ++ 0x22 :: (0x3A
            :: (jsonStringify v ++ (jsonStringifyMembersTail ms2 ++ 0x7D :: rest)))))
            = (match parseStringBody (escBody k ++ 0x22 :: (0x3A :: (jsonStringify v
                ++ (jsonStringifyMembersTail ms2 ++ 0x7D :: rest)))) with
              | some (k', r2) =>
                (match skipWs r2 with
                 | [] => none
                 | c2 :: r3 =>
                   if c2 = 0x3A then
                     match parseVal G r3 with
                     | some (v', r4) => parseObjRest G [(k', v')] r4
                     | none => none
                   else none)
              | none => none) := rfl
        rw [h2, parseStringBody_escBody]
        show (match parseVal G (jsonStringify v
            ++ (jsonStringifyMembersTail ms2 ++ 0x7D :: rest)) with
          | some (v', r4) => parseObjRest G [(k, v')] r4
          | none => none) = some (JVal.obj ((k, v) :: ms2), rest)
        have hA := (ih G (by omega)).1 v
          (jsonStringifyMembersTail ms2 ++ 0x7D :: rest) hvv
          (numSafeB_membersTail ms2 rest) (by
            simp only [List.length_cons, List.length_append] at hfuel ⊢
            omega)
        rw [hA]
        show parseObjRest G [(k, v)] (jsonStringifyMembersTail ms2 ++ 0x7D :: rest)
          = some (JVal.obj ((k, v) :: ms2), rest)
        have hB := (ih G (by omega)).2.2 ms2 [(k, v)] rest hvms (by
          simp only [List.length_cons, List.length_append] at hfuel ⊢
          omega)
        rw [hB]
        rfl
  · -- array tails
    intro xs acc rest hv hfuel
    obtain ⟨F, rfl⟩ : ∃ F, fuel = F + 1 := by
      cases fuel with
      | zero => exact absurd hfuel (by omega)
      | succ n => exact ⟨n, rfl⟩
    cases xs with
    | nil =>
      have h1 : parseArrRest (F + 1) acc (0x5D :: rest) = some (JVal.arr acc, rest) := rfl
      show parseArrRest (F + 1) acc (0x5D :: rest) = some (JVal.arr (acc ++ []), rest)
      rw [h1]
      simp
    | cons x xs2 =>
      have hv' : validJValList (x :: xs2) = true := hv
      obtain ⟨hvx, hvxs⟩ := validJValList_cons x xs2 hv'
      have he : jsonStringifyElemsTail (x :: xs2) ++ 0x5D :: rest
          = 0x2C :: (jsonStringify x ++ (jsonStringifyElemsTail xs2 ++ 0x5D :: rest)) := by
        show (0x2C :: (jsonStringify x ++ jsonStringifyElemsTail xs2)) ++ 0x5D :: rest = _
        simp [List.append_assoc]
      rw [he] at hfuel ⊢
      have h1 : parseArrRest (F + 1) acc (0x2C :: (jsonStringify x
          ++ (jsonStringifyElemsTail xs2 ++ 0x5D :: rest)))
          = (match parseVal F (jsonStringify x
              ++ (jsonStringifyElemsTail xs2 ++ 0x5D :: rest)) with
            | some (v, r2) => parseArrRest F (acc ++ [v]) r2
            | none => none) := rfl
      rw [h1]
      have hlp := jsonStringify_length_pos x
      have hA := (ih F (by omega)).1 x (jsonStringifyElemsTail xs2 ++ 0x5D :: rest)
        hvx (numSafeB_elemsTail xs2 rest) (by
          simp only [List.length_cons, List.length_append] at hfuel ⊢
          omega)
      rw [hA]
      show parseArrRest F (acc ++ [x]) (jsonStringifyElemsTail xs2 ++ 0x5D :: rest)
        = some (JVal.arr (acc ++ x :: xs2), rest)
      have hB := (ih F (by omega)).2.1 xs2 (acc ++ [x]) rest hvxs (by
        simp only [List.length_cons, List.length_append] at hfuel ⊢
        omega)
      rw [hB]
      simp
  · -- object tails
    intro ms acc rest hv hfuel
    obtain ⟨F, rfl⟩ : ∃ F, fuel = F + 1 := by
      cases fuel with
      | zero => exact absurd hfuel (by omega)
      | succ n => exact ⟨n, rfl⟩
    cases ms with
    | nil =>
      have h1 : parseObjRest (F + 1) acc (0x7D :: rest) = some (JVal.obj acc, rest) := rfl
      show parseObjRest (F + 1) acc (0x7D :: rest) = some (JVal.obj (acc ++ []), rest)
      rw [h1]
      simp
    | cons m ms2 =>
      obtain ⟨k, v⟩ := m
      have hv' : validJValMembers ((k, v) :: ms2) = true := hv
      obtain ⟨hvk, hvv, hvms⟩ := validJValMembers_cons (k, v) ms2 hv'
      have he : jsonStringifyMembersTail ((k, v) :: ms2) ++ 0x7D :: rest
          = 0x2C :: (0x22 :: (escBody k ++ 0x22 :: (0x3A :: (jsonStringify v
            ++ (jsonStringifyMembersTail ms2 ++ 0x7D :: rest))))) := by
        show (0x2C :: (((0x22 :: (escBody k ++ [0x22])) ++ 0x3A :: jsonStringify v)
          ++ jsonStringifyMembersTail ms2)) ++ 0x7D :: rest = _
        simp [List.append_assoc]
      rw [he] at hfuel ⊢
      have h1 : parseObjRest (F + 1) acc (0x2C :: (0x22 :: (escBody k ++ 0x22
          :: (0x3A :: (jsonStringify v ++ (jsonStringifyMembersTail ms2
          ++ 0x7D :: rest))))))
          = (match parseStringBody (escBody k ++ 0x22 :: (0x3A :: (jsonStringify v
              ++ (jsonStringifyMembersTail ms2 ++ 0x7D :: rest)))) with
            | some (k', r2) =>
              (match skipWs r2 with
               | [] => none
               | c2 :: r3 =>
                 if c2 = 0x3A then
                   match parseVal F r3 with
                   | some (v', r4) => parseObjRest F (acc ++ [(k', v')]) r4
                   | none => none
                 else none)
            | none => none) := rfl
      rw [h1, parseStringBody_escBody]
      show (match parseVal F (jsonStringify v
          ++ (jsonStringifyMembersTail ms2 ++ 0x7D :: rest)) with
        | some (v', r4) => parseObjRest F (acc ++ [(k, v')]) r4
        | none => none) = some (JVal.obj (acc ++ (k, v) :: ms2), rest)
      have hA := (ih F (by omega)).1 v
        (jsonStringifyMembersTail ms2 ++ 0x7D :: rest) hvv
        (numSafeB_membersTail ms2 rest) (by
          simp only [List.length_cons, List.length_append] at hfuel ⊢
          omega)
      rw [hA]
      show parseObjRest F (acc ++ [(k, v)]) (jsonStringifyMembersTail ms2 ++ 0x7D :: rest)
        = some (JVal.obj (acc ++ (k, v) :: ms2), rest)
      have hB := (ih F (by omega)).2.2 ms2 (acc ++ [(k, v)]) rest hvms (by
        simp only [List.length_cons, List.length_append] at hfuel ⊢
        omega)
      rw [hB]
      simp

/-- `JSON.parse` inverts `JSON.stringify` on well-formed values. -/
theorem jsonParse_stringify (v : JVal) (hv : validJVal v = true) :
    jsonParse (jsonStringify v) = some v := by
  unfold jsonParse
  have h := (parse_roundtrip_aux (2 * (jsonStringify v).length + 1)).1 v [] hv rfl
    (by simp)
  simp only [List.append_nil] at h
  rw [h]
  rfl

/-! ## `querystring.parse` / `querystring.stringify` and the wire codec

`querystring.parse` splits on `&`, splits each non-empty segment at the
first `=`, unescapes keys and values, and collects duplicate keys into
arrays (`QVal.arr`); `querystring.stringify` joins `key=escape(value)`
parts with `&`, repeating the key for array values. -/

/-- A value as seen by `querystring.parse`: a string, or an array for
duplicated keys. -/
inductive QVal where
  | str (s : List Nat)
  | arr (vs : List (List Nat))
deriving Repr, DecidableEq

def splitOnAux (sep : Nat) : List Nat → List Nat × List (List Nat)
  | [] => ([], [])
  | c :: rest =>
    let p := splitOnAux sep rest
    if c = sep then ([], p.1 :: p.2) else (c :: p.1, p.2)

def splitOnSep (sep : Nat) (l : List Nat) : List (List Nat) :=
  (splitOnAux sep l).1 :: (splitOnAux sep l).2

def splitFirstEq : List Nat → List Nat × List Nat
  | [] => ([], [])
  | c :: rest =>
    if c = 0x3D then ([], rest)
    else
      let p := splitFirstEq rest
      (c :: p.1, p.2)

/-- Model of `querystring.parse` (as a key/value pair list, in order). -/
def qsParse (m : List Nat) : List (List Nat × List Nat) :=
  ((splitOnSep 0x26 m).filter (fun seg => !seg.isEmpty)).map
    (fun seg => (qsUnescape (splitFirstEq seg).1, qsUnescape (splitFirstEq seg).2))

/-- Property access on the parse result: `none` for a missing key, a
string for a unique key, an array for duplicated keys. -/
def qsGet (pairs : List (List Nat × List Nat)) (k : List Nat) : Option QVal :=
  match (pairs.filter (fun pr => pr.1 == k)).map (fun pr => pr.2) with
  | [] => none
  | [v] => some (QVal.str v)
  | vs => some (QVal.arr vs)

/-- `key=value` parts of one stringified pair (repeated key for arrays;
an empty array contributes nothing, as in Node). -/
def qsPairParts (k : List Nat) : QVal → List (List Nat)
  | .str v => [qsEscape k ++ 0x3D :: qsEscape v]
  | .arr vs => vs.map (fun v => qsEscape k ++ 0x3D :: qsEscape v)

def joinAmpTail : List (List Nat) → List Nat
  | [] => []
  | x :: xs => 0x26 :: (x ++ joinAmpTail xs)

def joinAmp : List (List Nat) → List Nat
  | [] => []
  | x :: xs => x ++ joinAmpTail xs

def qsParts : List (List Nat × QVal) → List (List Nat)
  | [] => []
  | pr :: rest => qsPairParts pr.1 pr.2 ++ qsParts rest

/-- Model of `querystring.stringify`. -/
def qsStringify (pairs : List (List Nat × QVal)) : List Nat :=
  joinAmp (qsParts pairs)

/-- JavaScript `String(array)`: elements joined with commas (used when a
duplicated `payload` key reaches `JSON.parse`). -/
def joinCommaTail : List (List Nat) → List Nat
  | [] => []
  | x :: xs => 0x2C :: (x ++ joinCommaTail xs)

def qvalToString : QVal → List Nat
  | .str s => s
  | .arr [] => []
  | .arr (x :: xs) => x ++ joinCommaTail xs

/-- The wire keys (`type`, `id`, `payload`, `plugin`). -/
def keyType : List Nat := [0x74, 0x79, 0x70, 0x65]

def keyId : List Nat := [0x69, 0x64]

def keyPayload : List Nat := [0x70, 0x61, 0x79, 0x6C, 0x6F, 0x61, 0x64]

def keyPlugin : List Nat := [0x70, 0x6C, 0x75, 0x67, 0x69, 0x6E]

/-- The message type strings. -/
def typePush : List Nat := [0x70, 0x75, 0x73, 0x68]

def typeFetch : List Nat := [0x66, 0x65, 0x74, 0x63, 0x68]

def typeChallenge : List Nat := [0x63, 0x68, 0x61, 0x6C, 0x6C, 0x65, 0x6E, 0x67, 0x65]

def typeReply : List Nat := [0x72, 0x65, 0x70, 0x6C, 0x79]

def typeError : List Nat := [0x65, 0x72, 0x72, 0x6F, 0x72]

/-- Model of `encodeMessage(type, id, payload)` from Protocol.js:
`querystring.stringify({type, id, payload: JSON.stringify(payload)})`.
An `undefined` payload (`none`) stringifies to the empty string, as
`querystring.stringify` renders `undefined` values. -/
def encodeMessage (type : List Nat) (id : QVal) (payload : Option JVal) : List Nat :=
  qsStringify [(keyType, QVal.str type), (keyId, id),
    (keyPayload, QVal.str (match payload with
      | some v => jsonStringify v
      | none => []))]

/-- A decoded inbound message: the local variables of `processMessage`
after the validity gate (lines 155-177). -/
structure Wire where
  wtype : QVal
  wid : QVal
  wplugin : Option QVal
  wpayload : JVal
deriving Repr

/-- The inbound-type gate `["push", "fetch", "challenge"].includes(type)`
(an array-valued `type` never passes, as in JavaScript). -/
def typeOk : QVal → Bool
  | .str s => s == typePush || s == typeFetch || s == typeChallenge
  | .arr _ => false

/-- The decoding gate of `processMessage` (Protocol.js lines 155-177):
parse the wire string, require `type`, `id` and `payload` to be present,
require a known inbound `type`, and require the payload to be JSON. -/
def decodeMessage (m : List Nat) : Option Wire :=
  let pairs := qsParse m
  match qsGet pairs keyType, qsGet pairs keyId, qsGet pairs keyPayload with
  | some t, some i, some praw =>
    if typeOk t then
      match jsonParse (qvalToString praw) with
      | some payload => some ⟨t, i, qsGet pairs keyPlugin, payload⟩
      | none => none
    else none
  | _, _, _ => none

theorem validStr_append (a b : List Nat) :
    validStr (a ++ b) = (validStr a && validStr b) := by
  simp [validStr, List.all_append]

theorem hexDigitLower_lt (d : Nat) (hd : d < 16) : hexDigitLower d < 0x80 := by
  unfold hexDigitLower
  split_ifs <;> omega

theorem escBody_valid (s : List Nat) (hs : validStr s = true) :
    validStr (escBody s) = true := by
  induction s with
  | nil => rfl
  | cons c rest ih =>
    simp only [validStr, List.all_cons, Bool.and_eq_true, decide_eq_true_eq] at hs
    have hstep : escBody (c :: rest) = (if c = 0x22 then [0x5C, 0x22]
      else if c = 0x5C then [0x5C, 0x5C]
      else if c = 0x08 then [0x5C, 0x62]
      else if c = 0x09 then [0x5C, 0x74]
      else if c = 0x0A then [0x5C, 0x6E]
      else if c = 0x0C then [0x5C, 0x66]
      else if c = 0x0D then [0x5C, 0x72]
      else if c < 0x20 then [0x5C, 0x75, 0x30, 0x30, hexDigitLower (c / 16),
        hexDigitLower (c % 16)]
      else [c]) ++ escBody rest := rfl
    rw [hstep, validStr_append, Bool.and_eq_true]
    refine ⟨?_, ih hs.2⟩
    have hc := hs.1
    split_ifs with g1 g2 g3 g4 g5 g6 g7 g8
    · decide
    · decide
    · decide
    · decide
    · decide
    · decide
    · decide
    · have hl1 := hexDigitLower_lt (c / 16) (by omega)
      have hl2 := hexDigitLower_lt (c % 16) (by omega)
      simp only [validStr, List.all_cons, List.all_nil, Bool.and_eq_true,
        decide_eq_true_eq, and_true]
      omega
    · simp only [validStr, List.all_cons, List.all_nil, Bool.and_eq_true,
        decide_eq_true_eq, and_true]
      omega

mutual

theorem jsonStringify_valid (v : JVal) (h : validJVal v = true) :
    validStr (jsonStringify v) = true := by
  cases v with
  | null => rfl
  | bool b => cases b <;> rfl
  | num n =>
    show validStr (intRepr n) = true
    unfold intRepr
    have hd1 := natToDigits_digits n.natAbs
    have hd2 := natToDigits_digits n.toNat
    split_ifs <;>
      simp only [validStr, List.all_cons, List.all_eq_true, Bool.and_eq_true,
        decide_eq_true_eq]
    · exact ⟨by omega, fun x hx => by have := hd1 x hx; omega⟩
    · exact fun x hx => by have := hd2 x hx; omega
  | str s =>
    show validStr (0x22 :: (escBody s ++ [0x22])) = true
    have hv : validStr s = true := h
    simp only [validStr, List.all_cons, Bool.and_eq_true, decide_eq_true_eq,
      List.all_append, List.all_nil]
    refine ⟨by omega, ?_, by decide⟩
    have := escBody_valid s hv
    simp only [validStr] at this
    exact this
  | arr xs =>
    show validStr (0x5B :: (jsonStringifyElems xs ++ [0x5D])) = true
    have hv : validJValList xs = true := h
    simp only [validStr, List.all_cons, Bool.and_eq_true, decide_eq_true_eq,
      List.all_append, List.all_nil]
    refine ⟨by omega, ?_, by decide⟩
    have := jsonStringifyElems_valid xs hv
    simp only [validStr] at this
    exact this
  | obj ms =>
    show validStr (0x7B :: (jsonStringifyMembers ms ++ [0x7D])) = true
    have hv : validJValMembers ms = true := h
    simp only [validStr, List.all_cons, Bool.and_eq_true, decide_eq_true_eq,
      List.all_append, List.all_nil]
    refine ⟨by omega, ?_, by decide⟩
    have := jsonStringifyMembers_valid ms hv
    simp only [validStr] at this
    exact this

theorem jsonStringifyElems_valid (xs : List JVal) (h : validJValList xs = true) :
    validStr (jsonStringifyElems xs) = true := by
  cases xs with
  | nil => rfl
  | cons x xs2 =>
    obtain ⟨h1, h2⟩ := validJValList_cons x xs2 h
    show validStr (jsonStringify x ++ jsonStringifyElemsTail xs2) = true
    rw [validStr_append, Bool.and_eq_true]
    exact ⟨jsonStringify_valid x h1, jsonStringifyElemsTail_valid xs2 h2⟩

theorem jsonStringifyElemsTail_valid (xs : List JVal) (h : validJValList xs = true) :
    validStr (jsonStringifyElemsTail xs) = true := by
  cases xs with
  | nil => rfl
  | cons x xs2 =>
    obtain ⟨h1, h2⟩ := validJValList_cons x xs2 h
    show validStr (0x2C :: (jsonStringify x ++ jsonStringifyElemsTail xs2)) = true
    simp only [validStr, List.all_cons, Bool.and_eq_true, decide_eq_true_eq]
    refine ⟨by omega, ?_⟩
    have hx := jsonStringify_valid x h1
    have ht := jsonStringifyElemsTail_valid xs2 h2
    have := validStr_append (jsonStringify x) (jsonStringifyElemsTail xs2)
    rw [hx, ht] at this
    simp only [validStr] at this
    simp only [List.all_append]
    simp only [validStr] at hx ht
    rw [hx, ht]
    rfl

theorem jsonStringifyMembers_valid (ms : List (List Nat × JVal))
    (h : validJValMembers ms = true) :
    validStr (jsonStringifyMembers ms) = true := by
  cases ms with
  | nil => rfl
  | cons m ms2 =>
    obtain ⟨h1, h2, h3⟩ := validJValMembers_cons m ms2 h
    show validStr (jsonStringifyMember m ++ jsonStringifyMembersTail ms2) = true
    rw [validStr_append, Bool.and_eq_true]
    exact ⟨jsonStringifyMember_valid m ⟨h1, h2⟩, jsonStringifyMembersTail_valid ms2 h3⟩

theorem jsonStringifyMember_valid (m : List Nat × JVal)
    (h : validStr m.1 = true ∧ validJVal m.2 = true) :
    validStr (jsonStringifyMember m) = true := by
  obtain ⟨k, v⟩ := m
  show validStr ((0x22 :: (escBody k ++ [0x22])) ++ 0x3A :: jsonStringify v) = true
  rw [validStr_append, Bool.and_eq_true]
  constructor
  · simp only [validStr, List.all_cons, Bool.and_eq_true, decide_eq_true_eq,
      List.all_append, List.all_nil]
    refine ⟨by omega, ?_, by decide⟩
    have := escBody_valid k h.1
    simp only [validStr] at this
    exact this
  · simp only [validStr, List.all_cons, Bool.and_eq_true, decide_eq_true_eq]
    refine ⟨by omega, ?_⟩
    have := jsonStringify_valid v h.2
    simp only [validStr] at this
    exact this

theorem jsonStringifyMembersTail_valid (ms : List (List Nat × JVal))
    (h : validJValMembers ms = true) :
    validStr (jsonStringifyMembersTail ms) = true := by
  cases ms with
  | nil => rfl
  | cons m ms2 =>
    obtain ⟨h1, h2, h3⟩ := validJValMembers_cons m ms2 h
    show validStr (0x2C :: (jsonStringifyMember m ++ jsonStringifyMembersTail ms2)) = true
    simp only [validStr, List.all_cons, Bool.and_eq_true, decide_eq_true_eq,
      List.all_append]
    refine ⟨by omega, ?_, ?_⟩
    · have := jsonStringifyMember_valid m ⟨h1, h2⟩
      simp only [validStr] at this
      exact this
    · have := jsonStringifyMembersTail_valid ms2 h3
      simp only [validStr] at this
      exact this

end

theorem splitOnAux_no_sep (sep : Nat) (l : List Nat) (h : ∀ c ∈ l, c ≠ sep) :
    splitOnAux sep l = (l, []) := by
  induction l with
  | nil => rfl
  | cons c rest ih =>
    have hc : c ≠ sep := h c (by simp)
    have hrest := ih (fun x hx => h x (by simp [hx]))
    show (let p := splitOnAux sep rest
      if c = sep then ([], p.1 :: p.2) else (c :: p.1, p.2)) = (c :: rest, [])
    rw [hrest]
    simp [hc]

theorem splitOnAux_append (sep : Nat) (a b : List Nat) (ha : ∀ c ∈ a, c ≠ sep) :
    splitOnAux sep (a ++ sep :: b)
      = (a, (splitOnAux sep b).1 :: (splitOnAux sep b).2) := by
  induction a with
  | nil =>
    show (let p := splitOnAux sep b
      if sep = sep then ([], p.1 :: p.2) else (sep :: p.1, p.2)) = _
    simp
  | cons c a2 ih =>
    have hc : c ≠ sep := ha c (by simp)
    have ha2 := ih (fun x hx => ha x (by simp [hx]))
    show (let p := splitOnAux sep (a2 ++ sep :: b)
      if c = sep then ([], p.1 :: p.2) else (c :: p.1, p.2)) = _
    rw [ha2]
    simp [hc]

theorem splitFirstEq_append (k v : List Nat) (hk : ∀ c ∈ k, c ≠ 0x3D) :
    splitFirstEq (k ++ 0x3D :: v) = (k, v) := by
  induction k with
  | nil =>
    show (if (0x3D : Nat) = 0x3D then ([], v)
      else (let p := splitFirstEq v
        ((0x3D : Nat) :: p.1, p.2))) = ([], v)
    simp
  | cons c k2 ih =>
    have hc : c ≠ 0x3D := hk c (by simp)
    have hk2 := ih (fun x hx => hk x (by simp [hx]))
    show (if c = 0x3D then ([], k2 ++ 0x3D :: v)
      else (let p := splitFirstEq (k2 ++ 0x3D :: v)
        (c :: p.1, p.2))) = (c :: k2, v)
    rw [if_neg hc, hk2]

/-- Unescaping is the identity on unreserved strings. -/
theorem qsUnescape_unreserved (s : List Nat) (hs : s.all unreservedB = true) :
    qsUnescape s = s := by
  have h1 := qsEscape_unreserved s hs
  have h2 := qsUnescape_qsEscape s (validStr_of_unreserved s hs)
  rw [h1] at h2
  exact h2

/-- No character of one stringified `key=value` part is the separator `&`,
for an unreserved key and any JavaScript-string value. -/
theorem part_no_amp (k v : List Nat) (hk : k.all unreservedB = true)
    (hv : validStr v = true) :
    ∀ c ∈ k ++ 0x3D :: qsEscape v, c ≠ 0x26 := by
  intro c hc
  rcases List.mem_append.mp hc with h | h
  · simp only [List.all_eq_true] at hk
    have := unreservedB_not_special c (hk c h)
    exact this.2.2.1
  · rcases List.mem_cons.mp h with rfl | h2
    · omega
    · exact ((qsEscape_no_sep v hv) c h2).1

/-- No character of an unreserved key is `=`. -/
theorem key_no_eq (k : List Nat) (hk : k.all unreservedB = true) :
    ∀ c ∈ k, c ≠ 0x3D := by
  intro c hc
  simp only [List.all_eq_true] at hk
  exact (unreservedB_not_special c (hk c hc)).2.2.2

/-- `querystring.parse` inverts `encodeMessage` into its three pairs. -/
theorem qsParse_encodeMessage (t idv : List Nat) (p : JVal)
    (ht : validStr t = true) (hid : validStr idv = true) (hp : validJVal p = true) :
    qsParse (encodeMessage t (QVal.str idv) (some p))
      = [(keyType, t), (keyId, idv), (keyPayload, jsonStringify p)] := by
  have hkT : keyType.all unreservedB = true := by decide
  have hkI : keyId.all unreservedB = true := by decide
  have hkP : keyPayload.all unreservedB = true := by decide
  have hps : validStr (jsonStringify p) = true := jsonStringify_valid p hp
  have he : encodeMessage t (QVal.str idv) (some p)
      = (keyType ++ 0x3D :: qsEscape t) ++ 0x26 ::
        ((keyId ++ 0x3D :: qsEscape idv) ++ 0x26 ::
          (keyPayload ++ 0x3D :: qsEscape (jsonStringify p))) := by
    show joinAmp ((qsEscape keyType ++ 0x3D :: qsEscape t)
      :: (qsEscape keyId ++ 0x3D :: qsEscape idv)
      :: (qsEscape keyPayload ++ 0x3D :: qsEscape (jsonStringify p)) :: []) = _
    rw [qsEscape_unreserved keyType hkT, qsEscape_unreserved keyId hkI,
      qsEscape_unreserved keyPayload hkP]
    show (keyType ++ 0x3D :: qsEscape t) ++ 0x26 ::
      ((keyId ++ 0x3D :: qsEscape idv) ++ 0x26 ::
        ((keyPayload ++ 0x3D :: qsEscape (jsonStringify p)) ++ [])) = _
    simp
  rw [he]
  unfold qsParse
  have hsplit : splitOnSep 0x26 ((keyType ++ 0x3D :: qsEscape t) ++ 0x26 ::
      ((keyId ++ 0x3D :: qsEscape idv) ++ 0x26 ::
        (keyPayload ++ 0x3D :: qsEscape (jsonStringify p))))
      = [keyType ++ 0x3D :: qsEscape t, keyId ++ 0x3D :: qsEscape idv,
         keyPayload ++ 0x3D :: qsEscape (jsonStringify p)] := by
    unfold splitOnSep
    rw [splitOnAux_append 0x26 _ _ (part_no_amp keyType t hkT ht)]
    rw [splitOnAux_append 0x26 _ _ (part_no_amp keyId idv hkI hid)]
    rw [splitOnAux_no_sep 0x26 _ (part_no_amp keyPayload (jsonStringify p) hkP hps)]
  rw [hsplit]
  have hf1 : (keyType ++ 0x3D :: qsEscape t).isEmpty = false := rfl
  have hf2 : (keyId ++ 0x3D :: qsEscape idv).isEmpty = false := rfl
  have hf3 : (keyPayload ++ 0x3D :: qsEscape (jsonStringify p)).isEmpty = false := rfl
  rw [List.filter_cons, hf1]
  simp only [Bool.not_false, if_true]
  rw [List.filter_cons, hf2]
  simp only [Bool.not_false, if_true]
  rw [List.filter_cons, hf3]
  simp only [Bool.not_false, if_true, List.filter_nil]
  simp only [List.map_cons, List.map_nil]
  rw [splitFirstEq_append keyType (qsEscape t) (key_no_eq keyType hkT)]
  rw [splitFirstEq_append keyId (qsEscape idv) (key_no_eq keyId hkI)]
  rw [splitFirstEq_append keyPayload (qsEscape (jsonStringify p)) (key_no_eq keyPayload hkP)]
  rw [show qsUnescape keyType = keyType from qsUnescape_unreserved keyType hkT]
  rw [show qsUnescape keyId = keyId from qsUnescape_unreserved keyId hkI]
  rw [show qsUnescape keyPayload = keyPayload from qsUnescape_unreserved keyPayload hkP]
  rw [qsUnescape_qsEscape t ht, qsUnescape_qsEscape idv hid,
    qsUnescape_qsEscape (jsonStringify p) hps]

/-- Decoding inverts encoding for inbound types, ids and JSON payloads:
`decode(encode(type, id, payload))` recovers the message (`plugin` absent). -/
theorem decodeMessage_encodeMessage (t idv : List Nat) (p : JVal)
    (htok : typeOk (QVal.str t) = true)
    (ht : validStr t = true) (hid : validStr idv = true) (hp : validJVal p = true) :
    decodeMessage (encodeMessage t (QVal.str idv) (some p))
      = some ⟨QVal.str t, QVal.str idv, none, p⟩ := by
  unfold decodeMessage
  rw [qsParse_encodeMessage t idv p ht hid hp]
  show (if typeOk (QVal.str t) = true then
    match jsonParse (jsonStringify p) with
    | some payload => some (⟨QVal.str t, QVal.str idv, none, payload⟩ : Wire)
    | none => none
    else none) = some ⟨QVal.str t, QVal.str idv, none, p⟩
  rw [if_pos htok, jsonParse_stringify p hp]

/-! ## The `Protocol` class: state, constructor and event handlers

State fields mirror the instance fields of `Protocol` (`_options`,
`_socket`, `_reconnectTimeout`, `_pingTimeout`, `_disconnectEmitted`),
with timers as absolute deadlines against a wall clock `now`. The
transport handle is modelled by its `readyState`; the transport-side
state transitions (CONNECTING on creation, OPEN on the `open` event,
CLOSING on `close()`, CLOSED on the `close` event) are applied alongside
the corresponding wiring. -/

/-- Lenient base64 decoding, as `Buffer.from(s, "base64")`: non-alphabet
characters are skipped, four sextets become three bytes, trailing groups
of two/three sextets become one/two bytes. -/
def b64Val (c : Nat) : Option Nat :=
  if 0x41 ≤ c ∧ c ≤ 0x5A then some (c - 0x41)
  else if 0x61 ≤ c ∧ c ≤ 0x7A then some (c - 0x61 + 26)
  else if 0x30 ≤ c ∧ c ≤ 0x39 then some (c - 0x30 + 52)
  else if c = 0x2B then some 62
  else if c = 0x2F then some 63
  else none

def b64Chunks : List Nat → List Nat
  | a :: b :: c :: d :: rest =>
    (a * 4 + b / 16) :: ((b % 16) * 16 + c / 4) :: ((c % 4) * 64 + d) :: b64Chunks rest
  | [a, b] => [a * 4 + b / 16]
  | [a, b, c] => [a * 4 + b / 16, (b % 16) * 16 + c / 4]
  | _ => []

def base64Decode (s : List Nat) : List Nat := b64Chunks (s.filterMap b64Val)

/-- The crypto collaborator: `crypto.privateDecrypt` with the instance's
private key, from ciphertext bytes to the decrypted UTF-8 string;
`none` models a thrown decryption error. -/
def Decrypt : Type := List Nat → Option (List Nat)

/-- `ConnectionOptions` (after merging). -/
structure Options where
  reconnect : Bool
  ignoreErrors : Bool
  reconnectDelay : Nat
deriving Repr, DecidableEq

/-- Caller-supplied option overrides (`undefined` fields are `none`). -/
structure OptIn where
  reconnect : Option Bool
  ignoreErrors : Option Bool
  reconnectDelay : Option Nat
deriving Repr, DecidableEq

/-- The `merge-options` collaborator on the recognized keys: caller
overrides win over defaults. -/
def mergeOptions (defaults : Options) (o : OptIn) : Options :=
  { reconnect := o.reconnect.getD defaults.reconnect
    ignoreErrors := o.ignoreErrors.getD defaults.ignoreErrors
    reconnectDelay := o.reconnectDelay.getD defaults.reconnectDelay }

/-- The defaults written in the constructor. -/
def defaultOptions : Options :=
  { reconnect := true, ignoreErrors := true, reconnectDelay := 2000 }

inductive ReadyState where
  | CONNECTING
  | OPEN
  | CLOSING
  | CLOSED
deriving Repr, DecidableEq

/-- The mutable instance state of a `Protocol` object. -/
structure St where
  clientId : List Nat
  privateKeyRaw : List Nat
  options : Options
  socket : Option ReadyState
  reconnectTimeout : Option Nat
  pingTimeout : Option Nat
  disconnectEmitted : Bool
  now : Nat
deriving Repr, DecidableEq

/-- The constructor: throws (`Except.error`) when `clientId` or
`privateKeyRaw` is `undefined`/`null` (`== undefined`), otherwise merges
options over the defaults and initializes the instance fields. -/
def mkProtocol (clientId : Option (List Nat)) (privateKeyRaw : Option (List Nat))
    (o : OptIn) : Except Unit St :=
  match clientId, privateKeyRaw with
  | some c, some k =>
    .ok { clientId := c
          privateKeyRaw := k
          options := mergeOptions defaultOptions o
          socket := none
          reconnectTimeout := none
          pingTimeout := none
          disconnectEmitted := false
          now := 0 }
  | _, _ => .error ()

/-- Observable actions of the engine: events emitted on the `Protocol`
instance, frames passed to `socket.send`, and transport commands. -/
inductive Out where
  | emitConnected
  | emitDisconnected (code : Nat) (reason : List Nat)
  | emitError (msg : List Nat)
  | emitPush (plugin : Option QVal) (payload : JVal)
  | emitFetch (plugin : Option QVal) (payload : JVal) (replyId : QVal)
  | sendFrame (data : List Nat)
  | socketClose
  | socketNew
deriving Repr

def decryptErrMsg : List Nat :=
  jstr ("The provided private key failed to decrypt the challenge.")

def pingTimeoutReason : List Nat := jstr ("Ping timeout")

/-- `sendReply(id, payload)`: encode a `reply` frame and `socket.send` it
(`this._socket.send` throws when `_socket` is `null`). -/
def sendReply (s : St) (id : QVal) (payload : Option JVal) : Except Unit (St × List Out) :=
  match s.socket with
  | none => .error ()
  | some _ => .ok (s, [Out.sendFrame (encodeMessage typeReply id payload)])

/-- `sendError(id, err)`: encode an `error` frame carrying
`{message: err.message}` and `socket.send` it. -/
def sendError (s : St) (id : QVal) (errMsg : List Nat) : Except Unit (St × List Out) :=
  match s.socket with
  | none => .error ()
  | some _ => .ok (s, [Out.sendFrame (encodeMessage typeError id
      (some (JVal.obj [(jstr ("message"), JVal.str errMsg)])))])

/-- The function synthesized by `_generateReplyFunction(id)`: its body is
`(err, response) => this.sendReply(id, response)` — the `err` argument is
ignored by the source. -/
def generateReplyFunction (s : St) (id : QVal) (err : Option (List Nat))
    (response : Option JVal) : Except Unit (St × List Out) :=
  sendReply s id response

/-- JavaScript member access `payload.challenge`: throws on `null`
(`Except.error`), yields the property of an object (duplicate JSON keys
resolve to the last one, as in `JSON.parse`), and `undefined` (`none`)
on any other value. -/
def jsMember (v : JVal) (k : List Nat) : Except Unit (Option JVal) :=
  match v with
  | .null => .error ()
  | .obj ms => .ok ((ms.filter (fun m => m.1 == k)).getLast?.map (fun m => m.2))
  | _ => .ok none

/-- The `catch` block of `_handleChallenge`: emit an `error` event; when a
socket exists, permanently disable reconnection, `close()` it unless it is
already CLOSED, and drop the handle. -/
def challengeFailure (s : St) : St × List Out :=
  match s.socket with
  | none => (s, [Out.emitError decryptErrMsg])
  | some rs =>
    let s1 := { s with options := { s.options with reconnect := false }, socket := none }
    if rs = ReadyState.CLOSED then (s1, [Out.emitError decryptErrMsg])
    else (s1, [Out.emitError decryptErrMsg, Out.socketClose])

/-- Property lookup on a decoded JSON object (duplicate keys resolve to
the last one, as in `JSON.parse`). -/
def objLookup (ms : List (List Nat × JVal)) (k : List Nat) : Option JVal :=
  ((ms.filter (fun mb => mb.1 == k)).getLast?).map (fun mb => mb.2)

mutual

/-- The string an array element contributes to `Array.prototype.join`
(what `ToPrimitive` runs on an array): numbers in decimal, strings
verbatim, booleans as words, `null` as the empty string, nested arrays
comma-joined, objects as "[object Object]". -/
def jsElemString : JVal → List Nat
  | .null => []
  | .bool true => jstr ("true")
  | .bool false => jstr ("false")
  | .num n => intRepr n
  | .str s => s
  | .arr xs => jsElemStrings xs
  | .obj _ => jstr ("[object Object]")

def jsElemStrings : List JVal → List Nat
  | [] => []
  | [x] => jsElemString x
  | x :: xs => jsElemString x ++ 0x2C :: jsElemStrings xs

end

/-- `Number(string)` restricted to optional-sign decimal integers with
surrounding whitespace; other numeric forms (fractions, exponents, hex,
Infinity) are outside the embedding, and non-numeric text is NaN
(`none`). -/
def jsNumOfString (s : List Nat) : Option Int :=
  match ((s.dropWhile isWsB).reverse.dropWhile isWsB).reverse with
  | [] => some 0
  | 0x2D :: ds =>
    if ds ≠ [] ∧ ds.all isDigitB then some (-(digitsToNat ds : Int)) else none
  | 0x2B :: ds =>
    if ds ≠ [] ∧ ds.all isDigitB then some (digitsToNat ds) else none
  | ds => if ds.all isDigitB then some (digitsToNat ds) else none

/-- `ToNumber` on a decoded JSON value (`none` is NaN): numbers as they
are, `null` 0, booleans 0/1, strings through `Number(string)`, arrays
through their join string, plain objects NaN. -/
def jsToNumber : JVal → Option Int
  | .num n => some n
  | .null => some 0
  | .bool true => some 1
  | .bool false => some 0
  | .str s => jsNumOfString s
  | .arr xs => jsNumOfString (jsElemStrings xs)
  | .obj _ => none

/-- `ToUint8` after `ToNumber`: NaN to 0, integers reduced mod 256. -/
def jsToUint8 (v : JVal) : Nat :=
  match jsToNumber v with
  | some n => (n % 256).toNat
  | none => 0

/-- `Buffer.from(value, "base64")` on a decoded JSON value; `none` is a
thrown `TypeError`. A string is base64-decoded (the encoding argument
applies only to strings). An array becomes bytes element-wise through
`ToUint8`. An object is array-like when it has a `length` member: a
numeric length reads that many indexed members (a missing index is the
zero byte, a negative length clamps to empty), any other length value
gives an empty buffer; an object without `length` throws. Numbers,
booleans and `null` always throw. -/
def bufferFrom : JVal → Option (List Nat)
  | .str s => some (base64Decode s)
  | .arr xs => some (xs.map jsToUint8)
  | .obj ms =>
    match objLookup ms (jstr ("length")) with
    | none => none
    | some (JVal.num n) =>
      some ((List.range n.toNat).map (fun i =>
        match objLookup ms (natToDigits i) with
        | some v => jsToUint8 v
        | none => 0))
    | some _ => some []
  | _ => none

/-- `_handleChallenge(id, payload)`: read `payload.challenge` (a throw on
`null` payload escapes the handler); inside the `try`, convert it with
`Buffer.from(challenge, "base64")` — a value `Buffer.from` rejects
throws into the `catch`, i.e. the failure path — then decrypt the bytes
and reply with `{response}` on success; a decryption error also lands in
the failure path. -/
def handleChallenge (decrypt : Decrypt) (s : St) (id : QVal) (payload : JVal) :
    Except Unit (St × List Out) :=
  match jsMember payload (jstr ("challenge")) with
  | .error e => .error e
  | .ok chall =>
    match chall with
    | none => .ok (challengeFailure s)
    | some v =>
      match bufferFrom v with
      | none => .ok (challengeFailure s)
      | some bs =>
        match decrypt bs with
        | some response =>
          sendReply s id (some (JVal.obj [(jstr ("response"), JVal.str response)]))
        | none => .ok (challengeFailure s)

/-- `processMessage(message)`: decode, silently drop invalid frames, and
dispatch `challenge`/`push`/`fetch` (lines 155-186). -/
def processMessage (decrypt : Decrypt) (s : St) (m : List Nat) :
    Except Unit (St × List Out) :=
  match decodeMessage m with
  | none => .ok (s, [])
  | some w =>
    if w.wtype = QVal.str typeChallenge then handleChallenge decrypt s w.wid w.wpayload
    else if w.wtype = QVal.str typePush then .ok (s, [Out.emitPush w.wplugin w.wpayload])
    else .ok (s, [Out.emitFetch w.wplugin w.wpayload w.wid])

/-- `_reconnect()`: arm the reconnect timer unless one is already pending. -/
def reconnectSchedule (s : St) : St :=
  match s.reconnectTimeout with
  | some _ => s
  | none => { s with reconnectTimeout := some (s.now + s.options.reconnectDelay) }

/-- The `open` handler: reset the disconnect guard and emit `connected`
(the transport handle becomes OPEN). -/
def handleOpen (s : St) : St × List Out :=
  ({ s with
      socket := s.socket.map (fun _ => ReadyState.OPEN)
      disconnectEmitted := false },
   [Out.emitConnected])

/-- The `close` handler: emit `disconnected {code, reason}` once per
episode (guarded by `_disconnectEmitted`), then schedule a reconnect if
enabled (the transport handle becomes CLOSED). -/
def handleClose (s : St) (code : Nat) (reason : List Nat) : St × List Out :=
  let s0 := { s with socket := s.socket.map (fun _ => ReadyState.CLOSED) }
  let p := if s0.disconnectEmitted then (s0, ([] : List Out))
           else ({ s0 with disconnectEmitted := true },
             [Out.emitDisconnected code reason])
  (if p.1.options.reconnect then reconnectSchedule p.1 else p.1, p.2)

/-- The `unexpected-response` handler: like `close`, with
`{code: statusCode, reason: ""}`. -/
def handleUnexpectedResponse (s : St) (status : Nat) : St × List Out :=
  let p := if s.disconnectEmitted then (s, ([] : List Out))
           else ({ s with disconnectEmitted := true },
             [Out.emitDisconnected status []])
  (if p.1.options.reconnect then reconnectSchedule p.1 else p.1, p.2)

/-- The `error` handler: re-emit only when `ignoreErrors` is false. -/
def handleSockError (s : St) (msg : List Nat) : St × List Out :=
  (s, if s.options.ignoreErrors then [] else [Out.emitError msg])

/-- The `ping` handler: clear and re-arm the 30-second liveness timer. -/
def handlePing (s : St) : St × List Out :=
  ({ s with pingTimeout := some (s.now + 30000) }, [])

/-- `connect()`: clear the liveness timer; if a non-CLOSED handle exists,
request its close and return (the `close` event continues the lifecycle);
otherwise open a fresh handle (readyState CONNECTING). -/
def connect (s : St) : St × List Out :=
  let s0 := { s with pingTimeout := none }
  match s0.socket with
  | some rs =>
    if rs ≠ ReadyState.CLOSED then
      ({ s0 with socket := some ReadyState.CLOSING }, [Out.socketClose])
    else ({ s0 with socket := some ReadyState.CONNECTING }, [Out.socketNew])
  | none => ({ s0 with socket := some ReadyState.CONNECTING }, [Out.socketNew])

/-- The liveness-timeout callback: emit `disconnected {0, "Ping timeout"}`
(unguarded), clear the timer, and schedule a reconnect if enabled. -/
def pingTimeoutFire (s : St) : St × List Out :=
  let s1 := { s with pingTimeout := none }
  (if s1.options.reconnect then reconnectSchedule s1 else s1,
   [Out.emitDisconnected 0 pingTimeoutReason])

/-- The reconnect-timer callback: clear the timer and call `connect()`. -/
def reconnectFire (s : St) : St × List Out :=
  connect { s with reconnectTimeout := none }

/-- Fire timers whose deadline has passed (deterministically: liveness
timer first each round). -/
def fireDue : Nat → St → St × List Out
  | 0, s => (s, [])
  | fuel + 1, s =>
    match s.pingTimeout with
    | some d =>
      if d ≤ s.now then
        let p := pingTimeoutFire s
        let q := fireDue fuel p.1
        (q.1, p.2 ++ q.2)
      else
        match s.reconnectTimeout with
        | some d2 =>
          if d2 ≤ s.now then
            let p := reconnectFire s
            let q := fireDue fuel p.1
            (q.1, p.2 ++ q.2)
          else (s, [])
        | none => (s, [])
    | none =>
      match s.reconnectTimeout with
      | some d2 =>
        if d2 ≤ s.now then
          let p := reconnectFire s
          let q := fireDue fuel p.1
          (q.1, p.2 ++ q.2)
        else (s, [])
      | none => (s, [])

/-- Advance the wall clock to `t` and fire due timers. -/
def tick (s : St) (t : Nat) : St × List Out :=
  fireDue 8 { s with now := t }

/-- One external event of the connection. -/
inductive Ev where
  | evConnect
  | evOpen
  | evClose (code : Nat) (reason : List Nat)
  | evUnexpectedResponse (status : Nat)
  | evSockError (msg : List Nat)
  | evMessage (m : List Nat)
  | evPing
  | evTick (t : Nat)
deriving Repr

/-- The event-to-handler wiring of `connect()` plus application calls and
the clock; only message processing can throw (uncaught exceptions). -/
def step (decrypt : Decrypt) (s : St) : Ev → Except Unit (St × List Out)
  | .evConnect => .ok (connect s)
  | .evOpen => .ok (handleOpen s)
  | .evClose code reason => .ok (handleClose s code reason)
  | .evUnexpectedResponse status => .ok (handleUnexpectedResponse s status)
  | .evSockError msg => .ok (handleSockError s msg)
  | .evMessage m => processMessage decrypt s m
  | .evPing => .ok (handlePing s)
  | .evTick t => .ok (tick s t)

/-- Run a trace of events, collecting outputs. -/
def run (decrypt : Decrypt) : St → List Ev → Except Unit (St × List Out)
  | s, [] => .ok (s, [])
  | s, e :: es => do
    let p ← step decrypt s e
    let q ← run decrypt p.1 es
    .ok (q.1, p.2 ++ q.2)

/-! ## Concrete instances used by witnesses -/

/-- A connected instance with default options. -/
def demoSt : St where
  clientId := jstr ("c")
  privateKeyRaw := jstr ("k")
  options := defaultOptions
  socket := some ReadyState.OPEN
  reconnectTimeout := none
  pingTimeout := none
  disconnectEmitted := false
  now := 0

/-- A freshly constructed instance (no socket yet). -/
def initSt : St where
  clientId := jstr ("c")
  privateKeyRaw := jstr ("k")
  options := defaultOptions
  socket := none
  reconnectTimeout := none
  pingTimeout := none
  disconnectEmitted := false
  now := 0

/-- A decryption collaborator that succeeds on the ciphertext bytes of
`"QQ=="` and fails otherwise. -/
def demoDecrypt : Decrypt := fun bs =>
  if bs = base64Decode (jstr ("QQ==")) then some (jstr ("ok")) else none

/-- A decryption collaborator that always fails (wrong private key). -/
def demoDecryptFail : Decrypt := fun _ => none

/-! ## Helper lemmas about the lifecycle handlers -/

theorem reconnectSchedule_options (s : St) : (reconnectSchedule s).options = s.options := by
  obtain ⟨cid, key, opts, sock, rt, pt, de, now⟩ := s
  cases rt <;> rfl

theorem connect_options (s : St) : (connect s).1.options = s.options := by
  obtain ⟨cid, key, opts, sock, rt, pt, de, now⟩ := s
  cases sock with
  | none => rfl
  | some rs => cases rs <;> rfl

theorem pingTimeoutFire_options (s : St) : (pingTimeoutFire s).1.options = s.options := by
  obtain ⟨cid, key, opts, sock, rt, pt, de, now⟩ := s
  obtain ⟨rec, ign, delay⟩ := opts
  cases rec with
  | false => rfl
  | true => cases rt <;> rfl

theorem reconnectFire_options (s : St) : (reconnectFire s).1.options = s.options :=
  connect_options { s with reconnectTimeout := none }

theorem handleClose_options (s : St) (c : Nat) (r : List Nat) :
    (handleClose s c r).1.options = s.options := by
  obtain ⟨cid, key, opts, sock, rt, pt, de, now⟩ := s
  obtain ⟨rec, ign, delay⟩ := opts
  cases de <;> cases rec <;> cases rt <;> rfl

theorem handleUnexpectedResponse_options (s : St) (st : Nat) :
    (handleUnexpectedResponse s st).1.options = s.options := by
  obtain ⟨cid, key, opts, sock, rt, pt, de, now⟩ := s
  obtain ⟨rec, ign, delay⟩ := opts
  cases de <;> cases rec <;> cases rt <;> rfl

theorem fireDue_options (fuel : Nat) : ∀ s : St, (fireDue fuel s).1.options = s.options := by
  induction fuel with
  | zero =>
    intro s
    rfl
  | succ f ih =>
    intro s
    obtain ⟨cid, key, opts, sock, rt, pt, de, now⟩ := s
    cases pt with
    | some d =>
      by_cases hd : d ≤ now
      · show (if d ≤ now then
            (let p := pingTimeoutFire (St.mk cid key opts sock rt (some d) de now)
             let q := fireDue f p.1
             (q.1, p.2 ++ q.2))
          else
            (match rt with
             | some d2 =>
               if d2 ≤ now then
                 (let p := reconnectFire (St.mk cid key opts sock rt (some d) de now)
                  let q := fireDue f p.1
                  (q.1, p.2 ++ q.2))
               else (St.mk cid key opts sock rt (some d) de now, [])
             | none => (St.mk cid key opts sock rt (some d) de now, []))).1.options = opts
        rw [if_pos hd]
        show (fireDue f (pingTimeoutFire (St.mk cid key opts sock rt (some d) de now)).1).1.options
          = opts
        rw [ih, pingTimeoutFire_options]
      · cases rt with
        | none =>
          show (if d ≤ now then
              (let p := pingTimeoutFire (St.mk cid key opts sock none (some d) de now)
               let q := fireDue f p.1
               (q.1, p.2 ++ q.2))
            else (St.mk cid key opts sock none (some d) de now, [])).1.options = opts
          rw [if_neg hd]
        | some d2 =>
          by_cases hd2 : d2 ≤ now
          · show (if d ≤ now then
                (let p := pingTimeoutFire (St.mk cid key opts sock (some d2) (some d) de now)
                 let q := fireDue f p.1
                 (q.1, p.2 ++ q.2))
              else
                if d2 ≤ now then
                  (let p := reconnectFire (St.mk cid key opts sock (some d2) (some d) de now)
                   let q := fireDue f p.1
                   (q.1, p.2 ++ q.2))
                else (St.mk cid key opts sock (some d2) (some d) de now, [])).1.options = opts
            rw [if_neg hd, if_pos hd2]
            show (fireDue f
                (reconnectFire (St.mk cid key opts sock (some d2) (some d) de now)).1).1.options
              = opts
            rw [ih, reconnectFire_options]
          · show (if d ≤ now then
                (let p := pingTimeoutFire (St.mk cid key opts sock (some d2) (some d) de now)
                 let q := fireDue f p.1
                 (q.1, p.2 ++ q.2))
              else
                if d2 ≤ now then
                  (let p := reconnectFire (St.mk cid key opts sock (some d2) (some d) de now)
                   let q := fireDue f p.1
                   (q.1, p.2 ++ q.2))
                else (St.mk cid key opts sock (some d2) (some d) de now, [])).1.options = opts
            rw [if_neg hd, if_neg hd2]
    | none =>
      cases rt with
      | none => rfl
      | some d2 =>
        by_cases hd2 : d2 ≤ now
        · show (if d2 ≤ now then
              (let p := reconnectFire (St.mk cid key opts sock (some d2) none de now)
               let q := fireDue f p.1
               (q.1, p.2 ++ q.2))
            else (St.mk cid key opts sock (some d2) none de now, [])).1.options = opts
          rw [if_pos hd2]
          show (fireDue f
              (reconnectFire (St.mk cid key opts sock (some d2) none de now)).1).1.options = opts
          rw [ih, reconnectFire_options]
        · show (if d2 ≤ now then
              (let p := reconnectFire (St.mk cid key opts sock (some d2) none de now)
               let q := fireDue f p.1
               (q.1, p.2 ++ q.2))
            else (St.mk cid key opts sock (some d2) none de now, [])).1.options = opts
          rw [if_neg hd2]

theorem tick_options (s : St) (t : Nat) : (tick s t).1.options = s.options :=
  fireDue_options 8 { s with now := t }

theorem challengeFailure_reconnect_false (s : St) (h : s.options.reconnect = false) :
    (challengeFailure s).1.options.reconnect = false := by
  obtain ⟨cid, key, opts, sock, rt, pt, de, now⟩ := s
  cases sock with
  | none => exact h
  | some rs =>
    cases rs with
    | CLOSED => rfl
    | CONNECTING => rfl
    | OPEN => rfl
    | CLOSING => rfl

theorem handleChallenge_reconnect_false (d : Decrypt) (s : St) (id : QVal) (p : JVal)
    (s' : St) (outs : List Out) (h : s.options.reconnect = false)
    (hstep : handleChallenge d s id p = .ok (s', outs)) :
    s'.options.reconnect = false := by
  unfold handleChallenge at hstep
  cases hm : jsMember p (jstr ("challenge")) with
  | error e =>
    rw [hm] at hstep
    exact Except.noConfusion
      (show (Except.error e : Except Unit (St × List Out)) = Except.ok (s', outs) from hstep)
  | ok chall =>
    rw [hm] at hstep
    cases chall with
    | none =>
      injection hstep with h2
      rw [show s' = (challengeFailure s).1 from congrArg Prod.fst h2.symm]
      exact challengeFailure_reconnect_false s h
    | some v =>
      have hstep3 : (match bufferFrom v with
          | none => Except.ok (challengeFailure s)
          | some bs =>
            match d bs with
            | some response =>
              sendReply s id (some (JVal.obj [(jstr ("response"), JVal.str response)]))
            | none => Except.ok (challengeFailure s)) = Except.ok (s', outs) := hstep
      cases hb : bufferFrom v with
      | none =>
        rw [hb] at hstep3
        injection hstep3 with h2
        rw [show s' = (challengeFailure s).1 from congrArg Prod.fst h2.symm]
        exact challengeFailure_reconnect_false s h
      | some bs =>
        rw [hb] at hstep3
        have hstep4 : (match d bs with
            | some response =>
              sendReply s id (some (JVal.obj [(jstr ("response"), JVal.str response)]))
            | none => Except.ok (challengeFailure s)) = Except.ok (s', outs) := hstep3
        cases hd : d bs with
        | some resp =>
          rw [hd] at hstep4
          have hstep5 : sendReply s id
              (some (JVal.obj [(jstr ("response"), JVal.str resp)])) = Except.ok (s', outs) :=
            hstep4
          unfold sendReply at hstep5
          cases hs : s.socket with
          | none =>
            rw [hs] at hstep5
            exact Except.noConfusion (show (Except.error () : Except Unit (St × List Out))
              = Except.ok (s', outs) from hstep5)
          | some rs =>
            rw [hs] at hstep5
            injection hstep5 with h2
            rw [show s' = s from (congrArg Prod.fst h2).symm]
            exact h
        | none =>
          rw [hd] at hstep4
          injection hstep4 with h2
          rw [show s' = (challengeFailure s).1 from congrArg Prod.fst h2.symm]
          exact challengeFailure_reconnect_false s h

/-- Once `reconnect` has been forced off, no event handler ever turns it
back on. -/
theorem step_preserves_reconnect_false (d : Decrypt) (s s' : St) (e : Ev)
    (outs : List Out) (h : s.options.reconnect = false)
    (hstep : step d s e = .ok (s', outs)) :
    s'.options.reconnect = false := by
  cases e with
  | evConnect =>
    injection hstep with h2
    rw [show s' = (connect s).1 from congrArg Prod.fst h2.symm, connect_options]
    exact h
  | evOpen =>
    injection hstep with h2
    rw [show s' = (handleOpen s).1 from congrArg Prod.fst h2.symm]
    exact h
  | evClose code reason =>
    injection hstep with h2
    rw [show s' = (handleClose s code reason).1 from congrArg Prod.fst h2.symm,
      handleClose_options]
    exact h
  | evUnexpectedResponse st =>
    injection hstep with h2
    rw [show s' = (handleUnexpectedResponse s st).1 from congrArg Prod.fst h2.symm,
      handleUnexpectedResponse_options]
    exact h
  | evSockError msg =>
    injection hstep with h2
    rw [show s' = (handleSockError s msg).1 from congrArg Prod.fst h2.symm]
    exact h
  | evPing =>
    injection hstep with h2
    rw [show s' = (handlePing s).1 from congrArg Prod.fst h2.symm]
    exact h
  | evTick t =>
    injection hstep with h2
    rw [show s' = (tick s t).1 from congrArg Prod.fst h2.symm, tick_options]
    exact h
  | evMessage m =>
    have hp : processMessage d s m = .ok (s', outs) := hstep
    unfold processMessage at hp
    cases hdec : decodeMessage m with
    | none =>
      rw [hdec] at hp
      injection hp with h2
      rw [show s' = s from (congrArg Prod.fst h2).symm]
      exact h
    | some w =>
      rw [hdec] at hp
      have hp2 : (if w.wtype = QVal.str typeChallenge then handleChallenge d s w.wid w.wpayload
          else if w.wtype = QVal.str typePush then
            Except.ok (s, [Out.emitPush w.wplugin w.wpayload])
          else Except.ok (s, [Out.emitFetch w.wplugin w.wpayload w.wid]))
          = Except.ok (s', outs) := hp
      by_cases ht : w.wtype = QVal.str typeChallenge
      · rw [if_pos ht] at hp2
        exact handleChallenge_reconnect_false d s w.wid w.wpayload s' outs h hp2
      · rw [if_neg ht] at hp2
        by_cases ht2 : w.wtype = QVal.str typePush
        · rw [if_pos ht2] at hp2
          injection hp2 with h2
          rw [show s' = s from (congrArg Prod.fst h2).symm]
          exact h
        · rw [if_neg ht2] at hp2
          injection hp2 with h2
          rw [show s' = s from (congrArg Prod.fst h2).symm]
          exact h

/-! ## Classifiers and computation lemmas used by the claim theorems -/

/-- Transport-side disconnect notifications (`close`, `unexpected-response`). -/
def isCloseOrUnexp : Ev → Bool
  | .evClose _ _ => true
  | .evUnexpectedResponse _ => true
  | _ => false

def isDisconnectedOut : Out → Bool
  | .emitDisconnected _ _ => true
  | _ => false

/-- The challenge-failure path on a live socket: one `error` event, a
`close()` request, reconnection off, handle dropped. -/
theorem challengeFailure_spec (s : St) (rs : ReadyState) (hsock : s.socket = some rs)
    (hrs : rs ≠ ReadyState.CLOSED) :
    challengeFailure s
      = ({ s with options := { s.options with reconnect := false }, socket := none },
        [Out.emitError decryptErrMsg, Out.socketClose]) := by
  unfold challengeFailure
  rw [hsock]
  show (if rs = ReadyState.CLOSED
      then ({ s with options := { s.options with reconnect := false }, socket := none },
        [Out.emitError decryptErrMsg])
      else ({ s with options := { s.options with reconnect := false }, socket := none },
        [Out.emitError decryptErrMsg, Out.socketClose])) = _
  rw [if_neg hrs]

/-- A pending reconnect deadline in the future fires nothing. -/
theorem fireDue_idle (fuel : Nat) (s : St) (d2 : Nat)
    (hpt : s.pingTimeout = none) (hrt : s.reconnectTimeout = some d2)
    (hnd : ¬ d2 ≤ s.now) : fireDue fuel s = (s, []) := by
  cases fuel with
  | zero => rfl
  | succ f =>
    obtain ⟨cid, key, opts, sock, rt, pt, de, now⟩ := s
    have hpt' : pt = none := hpt
    have hrt' : rt = some d2 := hrt
    have hnd' : ¬ d2 ≤ now := hnd
    subst hpt'
    subst hrt'
    show (if d2 ≤ now then
        (let p := reconnectFire (St.mk cid key opts sock (some d2) none de now)
         let q := fireDue f p.1
         (q.1, p.2 ++ q.2))
      else (St.mk cid key opts sock (some d2) none de now, [])) = _
    rw [if_neg hnd']

theorem handleClose_disc (s : St) (c : Nat) (r : List Nat) :
    (handleClose s c r).1.disconnectEmitted = true
    ∧ (handleClose s c r).2.countP isDisconnectedOut
        = (if s.disconnectEmitted then 0 else 1) := by
  obtain ⟨cid, key, opts, sock, rt, pt, de, now⟩ := s
  obtain ⟨rec, ign, delay⟩ := opts
  cases de <;> cases rec <;> cases rt <;> exact ⟨rfl, rfl⟩

theorem handleUnexpectedResponse_disc (s : St) (st : Nat) :
    (handleUnexpectedResponse s st).1.disconnectEmitted = true
    ∧ (handleUnexpectedResponse s st).2.countP isDisconnectedOut
        = (if s.disconnectEmitted then 0 else 1) := by
  obtain ⟨cid, key, opts, sock, rt, pt, de, now⟩ := s
  obtain ⟨rec, ign, delay⟩ := opts
  cases de <;> cases rec <;> cases rt <;> exact ⟨rfl, rfl⟩

/-! ## The claims -/

/-- Claim C1: the specification says the synthesized fetch-reply function
transmits an `error` frame carrying the error's message when called with a
non-null error. In the source, `_generateReplyFunction` returns
`(err, response) => this.sendReply(id, response)`, ignoring `err`
entirely: called with an error of message "boom" and an undefined
response, it transmits a bare `reply` frame, which is not the `error`
frame that `sendError` (dead code) would have produced. -/
theorem c1_reply_function_ignores_error :
    generateReplyFunction demoSt (QVal.str (jstr ("1"))) (some (jstr ("boom"))) none
      = .ok (demoSt, [Out.sendFrame (encodeMessage typeReply (QVal.str (jstr ("1"))) none)])
    ∧ encodeMessage typeReply (QVal.str (jstr ("1"))) none
      ≠ encodeMessage typeError (QVal.str (jstr ("1")))
        (some (JVal.obj [(jstr ("message"), JVal.str (jstr ("boom")))])) :=
  ⟨rfl, by decide⟩

/-- Claim C4: a frame missing `type`, `id` or `payload`, or with a type
outside the inbound set, or with a payload that is not JSON, is silently
dropped: no event, no transmission, the state untouched. -/
theorem c4_malformed_dropped (decrypt : Decrypt) (s : St) (m : List Nat)
    (h : qsGet (qsParse m) keyType = none ∨ qsGet (qsParse m) keyId = none
      ∨ qsGet (qsParse m) keyPayload = none
      ∨ (∀ t, qsGet (qsParse m) keyType = some t → typeOk t = false)
      ∨ (∀ praw, qsGet (qsParse m) keyPayload = some praw →
          jsonParse (qvalToString praw) = none)) :
    processMessage decrypt s m = .ok (s, []) := by
  have hd : decodeMessage m = none := by
    unfold decodeMessage
    show (match qsGet (qsParse m) keyType, qsGet (qsParse m) keyId,
        qsGet (qsParse m) keyPayload with
      | some t, some i, some praw =>
        if typeOk t = true then
          match jsonParse (qvalToString praw) with
          | some payload => some (⟨t, i, qsGet (qsParse m) keyPlugin, payload⟩ : Wire)
          | none => none
        else none
      | _, _, _ => none) = none
    cases hqt : qsGet (qsParse m) keyType with
    | none => rfl
    | some t =>
      cases hqi : qsGet (qsParse m) keyId with
      | none => rfl
      | some i =>
        cases hqp : qsGet (qsParse m) keyPayload with
        | none => rfl
        | some praw =>
          show (if typeOk t = true then
              match jsonParse (qvalToString praw) with
              | some payload => some (⟨t, i, qsGet (qsParse m) keyPlugin, payload⟩ : Wire)
              | none => none
            else none) = none
          rcases h with h | h | h | h | h
          · rw [hqt] at h
            exact Option.noConfusion h
          · rw [hqi] at h
            exact Option.noConfusion h
          · rw [hqp] at h
            exact Option.noConfusion h
          · have htk := h t hqt
            rw [if_neg (by rw [htk]; exact Bool.noConfusion)]
          · have hj := h praw hqp
            by_cases htk : typeOk t = true
            · rw [if_pos htk, hj]
            · rw [if_neg htk]
  unfold processMessage
  rw [hd]

theorem c4_malformed_dropped_witness :
    processMessage demoDecryptFail demoSt (jstr ("type=push&id=1")) = .ok (demoSt, []) :=
  c4_malformed_dropped demoDecryptFail demoSt (jstr ("type=push&id=1"))
    (Or.inr (Or.inr (Or.inl rfl)))

/-- Claim C5 counterexample: the claim quantifies over every type, but the
decoder's inbound gate rejects the `reply` type that `encodeMessage`
itself produces, so the round trip fails for it. -/
theorem c5_counterexample :
    decodeMessage (encodeMessage typeReply (QVal.str (jstr ("a"))) (some JVal.null))
      = none := rfl

/-- Claim C5 (amended): for the inbound types `challenge`, `push` and
`fetch`, an id made of unreserved characters, and a JSON-serializable
payload, decoding the encoded frame returns type, id and payload
unchanged. -/
theorem c5_roundtrip_inbound (t idv : List Nat) (p : JVal)
    (ht : t = typeChallenge ∨ t = typePush ∨ t = typeFetch)
    (hid : idv.all unreservedB = true) (hp : validJVal p = true) :
    decodeMessage (encodeMessage t (QVal.str idv) (some p))
      = some ⟨QVal.str t, QVal.str idv, none, p⟩ := by
  have htok : typeOk (QVal.str t) = true := by
    rcases ht with h | h | h <;> subst h <;> decide
  have htv : validStr t = true := by
    rcases ht with h | h | h <;> subst h <;> decide
  exact decodeMessage_encodeMessage t idv p htok htv (validStr_of_unreserved idv hid) hp

theorem c5_roundtrip_inbound_witness :
    decodeMessage (encodeMessage typePush (QVal.str (jstr ("a7")))
        (some (JVal.obj [(jstr ("k"), JVal.str (jstr ("v v")))])))
      = some ⟨QVal.str typePush, QVal.str (jstr ("a7")), none,
          JVal.obj [(jstr ("k"), JVal.str (jstr ("v v")))]⟩ :=
  c5_roundtrip_inbound typePush (jstr ("a7"))
    (JVal.obj [(jstr ("k"), JVal.str (jstr ("v v")))])
    (Or.inr (Or.inl rfl)) (by decide) (by decide)

/-- Claim C9: the constructor throws exactly when the client identity or
the private key is absent; otherwise the caller's overrides are merged
over the defaults reconnect = true, ignoreErrors = true,
reconnectDelay = 2000. -/
theorem c9_constructor (cid key : Option (List Nat)) (o : OptIn) :
    (mkProtocol cid key o = .error () ↔ (cid = none ∨ key = none))
    ∧ (∀ c k, cid = some c → key = some k →
        mkProtocol cid key o = .ok
          { clientId := c
            privateKeyRaw := k
            options := { reconnect := o.reconnect.getD true
                         ignoreErrors := o.ignoreErrors.getD true
                         reconnectDelay := o.reconnectDelay.getD 2000 }
            socket := none
            reconnectTimeout := none
            pingTimeout := none
            disconnectEmitted := false
            now := 0 }) := by
  cases cid with
  | none =>
    refine ⟨⟨fun _ => Or.inl rfl, fun _ => ?_⟩, fun c k hc hk => Option.noConfusion hc⟩
    cases key <;> rfl
  | some c0 =>
    cases key with
    | none =>
      exact ⟨⟨fun _ => Or.inr rfl, fun _ => rfl⟩, fun c k hc hk => Option.noConfusion hk⟩
    | some k0 =>
      refine ⟨⟨fun hcontra => Except.noConfusion hcontra, fun hor => ?_⟩, ?_⟩
      · rcases hor with h | h
        · exact Option.noConfusion h
        · exact Option.noConfusion h
      · intro c k hc hk
        rw [← Option.some.inj hc, ← Option.some.inj hk]
        rfl

theorem c9_constructor_witness :
    mkProtocol (some (jstr ("c"))) (some (jstr ("k"))) ⟨some false, none, some 7⟩
      = .ok
        { clientId := jstr ("c")
          privateKeyRaw := jstr ("k")
          options := { reconnect := false, ignoreErrors := true, reconnectDelay := 7 }
          socket := none
          reconnectTimeout := none
          pingTimeout := none
          disconnectEmitted := false
          now := 0 } :=
  (c9_constructor (some (jstr ("c"))) (some (jstr ("k"))) ⟨some false, none, some 7⟩).2
    (jstr ("c")) (jstr ("k")) rfl rfl

/-- Claim C2: a challenge whose ciphertext fails to decrypt makes the
engine emit exactly one error event and transmit nothing, permanently
disables reconnection, and closes the live transport handle; a
subsequent close event then schedules no reconnect, and no later event
ever re-enables reconnection. -/
theorem c2_decrypt_failure (decrypt : Decrypt) (s : St) (m : List Nat)
    (w : Wire) (ch : List Nat) (rs : ReadyState)
    (hdec : decodeMessage m = some w)
    (htype : w.wtype = QVal.str typeChallenge)
    (hch : jsMember w.wpayload (jstr ("challenge")) = .ok (some (JVal.str ch)))
    (hfail : decrypt (base64Decode ch) = none)
    (hsock : s.socket = some rs) (hrs : rs ≠ ReadyState.CLOSED) :
    processMessage decrypt s m
      = .ok ({ s with options := { s.options with reconnect := false }, socket := none },
          [Out.emitError decryptErrMsg, Out.socketClose])
    ∧ (∀ code reason,
        (handleClose { s with options := { s.options with reconnect := false }, socket := none } code reason).1.reconnectTimeout
          = s.reconnectTimeout)
    ∧ (∀ (d2 : Decrypt) (s2 s3 : St) (e : Ev) (outs : List Out),
        s2.options.reconnect = false → step d2 s2 e = .ok (s3, outs) →
        s3.options.reconnect = false) := by
  refine ⟨?_, ?_, fun d2 s2 s3 e outs h2 hs2 =>
    step_preserves_reconnect_false d2 s2 s3 e outs h2 hs2⟩
  · unfold processMessage
    rw [hdec]
    show (if w.wtype = QVal.str typeChallenge then handleChallenge decrypt s w.wid w.wpayload
      else if w.wtype = QVal.str typePush then Except.ok (s, [Out.emitPush w.wplugin w.wpayload])
      else Except.ok (s, [Out.emitFetch w.wplugin w.wpayload w.wid])) = _
    rw [if_pos htype]
    unfold handleChallenge
    rw [hch]
    show (match decrypt (base64Decode ch) with
      | some response =>
        sendReply s w.wid (some (JVal.obj [(jstr ("response"), JVal.str response)]))
      | none => Except.ok (challengeFailure s)) = _
    rw [hfail]
    show Except.ok (challengeFailure s) = _
    rw [challengeFailure_spec s rs hsock hrs]
  · intro code reason
    obtain ⟨cid, key, opts, sock, rt, pt, de, now⟩ := s
    obtain ⟨rec, ign, delay⟩ := opts
    cases de <;> rfl

theorem c2_decrypt_failure_witness :
    processMessage demoDecryptFail demoSt
      (encodeMessage typeChallenge (QVal.str (jstr ("1")))
        (some (JVal.obj [(jstr ("challenge"), JVal.str (jstr ("QQ==")))])))
      = .ok ({ demoSt with options := { demoSt.options with reconnect := false }, socket := none },
          [Out.emitError decryptErrMsg, Out.socketClose]) :=
  (c2_decrypt_failure demoDecryptFail demoSt
    (encodeMessage typeChallenge (QVal.str (jstr ("1")))
      (some (JVal.obj [(jstr ("challenge"), JVal.str (jstr ("QQ==")))])))
    ⟨QVal.str typeChallenge, QVal.str (jstr ("1")), none,
      JVal.obj [(jstr ("challenge"), JVal.str (jstr ("QQ==")))]⟩
    (jstr ("QQ==")) ReadyState.OPEN rfl rfl rfl rfl rfl (by decide)).1

/-- Claim C6: a well-formed challenge whose base64 ciphertext decrypts
successfully produces exactly one `reply` frame, correlated by the
challenge's id, whose payload carries the decrypted string under
`response`; no error event is emitted and the state is unchanged. -/
theorem c6_challenge_success (decrypt : Decrypt) (s : St) (m : List Nat)
    (w : Wire) (ch resp : List Nat) (rs : ReadyState)
    (hdec : decodeMessage m = some w)
    (htype : w.wtype = QVal.str typeChallenge)
    (hch : jsMember w.wpayload (jstr ("challenge")) = .ok (some (JVal.str ch)))
    (hok : decrypt (base64Decode ch) = some resp)
    (hsock : s.socket = some rs) :
    processMessage decrypt s m
      = .ok (s, [Out.sendFrame (encodeMessage typeReply w.wid
          (some (JVal.obj [(jstr ("response"), JVal.str resp)])))]) := by
  unfold processMessage
  rw [hdec]
  show (if w.wtype = QVal.str typeChallenge then handleChallenge decrypt s w.wid w.wpayload
    else if w.wtype = QVal.str typePush then Except.ok (s, [Out.emitPush w.wplugin w.wpayload])
    else Except.ok (s, [Out.emitFetch w.wplugin w.wpayload w.wid])) = _
  rw [if_pos htype]
  unfold handleChallenge
  rw [hch]
  show (match decrypt (base64Decode ch) with
    | some response =>
      sendReply s w.wid (some (JVal.obj [(jstr ("response"), JVal.str response)]))
    | none => Except.ok (challengeFailure s)) = _
  rw [hok]
  show sendReply s w.wid (some (JVal.obj [(jstr ("response"), JVal.str resp)])) = _
  unfold sendReply
  rw [hsock]

theorem c6_challenge_success_witness :
    processMessage demoDecrypt demoSt
      (encodeMessage typeChallenge (QVal.str (jstr ("1")))
        (some (JVal.obj [(jstr ("challenge"), JVal.str (jstr ("QQ==")))])))
      = .ok (demoSt, [Out.sendFrame (encodeMessage typeReply (QVal.str (jstr ("1")))
          (some (JVal.obj [(jstr ("response"), JVal.str (jstr ("ok")))])))]) :=
  c6_challenge_success demoDecrypt demoSt
    (encodeMessage typeChallenge (QVal.str (jstr ("1")))
      (some (JVal.obj [(jstr ("challenge"), JVal.str (jstr ("QQ==")))])))
    ⟨QVal.str typeChallenge, QVal.str (jstr ("1")), none,
      JVal.obj [(jstr ("challenge"), JVal.str (jstr ("QQ==")))]⟩
    (jstr ("QQ==")) (jstr ("ok")) ReadyState.OPEN rfl rfl rfl rfl rfl

/-- Claim C10 counterexample: the claim asserts that a challenge whose
payload lacks a usable challenge field always lands in the guarded
failure path. A `null` payload is a JSON-valid payload with no usable
challenge field, yet reading `payload.challenge` throws before the `try`
block, so the exception escapes the handler uncaught instead of reaching
the failure path. -/
theorem c10_counterexample :
    processMessage demoDecryptFail demoSt (jstr ("type=challenge&id=1&payload=null"))
      = .error () := rfl

/-- Claim C10 (amended): a `null` payload aside (see the counterexample),
the challenge value is handed to `Buffer.from(., "base64")` inside the
`try`. When that conversion throws — the field is absent, or holds a
number, boolean, `null`, or an object with no `length` member — the
handler lands in the guarded failure path: one error event, reconnection
permanently disabled, transport closed, exactly as for a wrong private
key. But not every non-string challenge fails: a JSON array (or a
length-bearing object) converts to bytes, is decrypted, and on success a
`reply` frame is sent instead. -/
theorem c10_challenge_conversion (decrypt : Decrypt) (s : St) (m : List Nat)
    (w : Wire) (c : Option JVal) (rs : ReadyState)
    (hdec : decodeMessage m = some w)
    (htype : w.wtype = QVal.str typeChallenge)
    (hch : jsMember w.wpayload (jstr ("challenge")) = .ok c)
    (hsock : s.socket = some rs) (hrs : rs ≠ ReadyState.CLOSED) :
    ((∀ v, c = some v → bufferFrom v = none) →
      processMessage decrypt s m
        = .ok ({ s with options := { s.options with reconnect := false }, socket := none },
            [Out.emitError decryptErrMsg, Out.socketClose]))
    ∧ (∀ v bs resp, c = some v → bufferFrom v = some bs → decrypt bs = some resp →
        processMessage decrypt s m
          = .ok (s, [Out.sendFrame (encodeMessage typeReply w.wid
              (some (JVal.obj [(jstr ("response"), JVal.str resp)])))])) := by
  constructor
  · intro hbuf
    unfold processMessage
    rw [hdec]
    show (if w.wtype = QVal.str typeChallenge then handleChallenge decrypt s w.wid w.wpayload
      else if w.wtype = QVal.str typePush then Except.ok (s, [Out.emitPush w.wplugin w.wpayload])
      else Except.ok (s, [Out.emitFetch w.wplugin w.wpayload w.wid])) = _
    rw [if_pos htype]
    unfold handleChallenge
    rw [hch]
    cases c with
    | none =>
      show Except.ok (challengeFailure s) = _
      rw [challengeFailure_spec s rs hsock hrs]
    | some v =>
      show (match bufferFrom v with
        | none => Except.ok (challengeFailure s)
        | some bs =>
          match decrypt bs with
          | some response =>
            sendReply s w.wid (some (JVal.obj [(jstr ("response"), JVal.str response)]))
          | none => Except.ok (challengeFailure s)) = _
      rw [hbuf v rfl]
      show Except.ok (challengeFailure s) = _
      rw [challengeFailure_spec s rs hsock hrs]
  · intro v bs resp hc hb hd
    subst hc
    unfold processMessage
    rw [hdec]
    show (if w.wtype = QVal.str typeChallenge then handleChallenge decrypt s w.wid w.wpayload
      else if w.wtype = QVal.str typePush then Except.ok (s, [Out.emitPush w.wplugin w.wpayload])
      else Except.ok (s, [Out.emitFetch w.wplugin w.wpayload w.wid])) = _
    rw [if_pos htype]
    unfold handleChallenge
    rw [hch]
    show (match bufferFrom v with
      | none => Except.ok (challengeFailure s)
      | some bs2 =>
        match decrypt bs2 with
        | some response =>
          sendReply s w.wid (some (JVal.obj [(jstr ("response"), JVal.str response)]))
        | none => Except.ok (challengeFailure s)) = _
    rw [hb]
    show (match decrypt bs with
      | some response =>
        sendReply s w.wid (some (JVal.obj [(jstr ("response"), JVal.str response)]))
      | none => Except.ok (challengeFailure s)) = _
    rw [hd]
    show sendReply s w.wid (some (JVal.obj [(jstr ("response"), JVal.str resp)])) = _
    unfold sendReply
    rw [hsock]

theorem c10_challenge_conversion_witness :
    processMessage demoDecrypt demoSt
      (encodeMessage typeChallenge (QVal.str (jstr ("1")))
        (some (JVal.obj [(jstr ("challenge"), JVal.arr [JVal.num 65])])))
      = .ok (demoSt, [Out.sendFrame (encodeMessage typeReply (QVal.str (jstr ("1")))
          (some (JVal.obj [(jstr ("response"), JVal.str (jstr ("ok")))])))]) :=
  (c10_challenge_conversion demoDecrypt demoSt
    (encodeMessage typeChallenge (QVal.str (jstr ("1")))
      (some (JVal.obj [(jstr ("challenge"), JVal.arr [JVal.num 65])])))
    ⟨QVal.str typeChallenge, QVal.str (jstr ("1")), none,
      JVal.obj [(jstr ("challenge"), JVal.arr [JVal.num 65])]⟩
    (some (JVal.arr [JVal.num 65])) ReadyState.OPEN rfl rfl rfl rfl (by decide)).2
    (JVal.arr [JVal.num 65]) (base64Decode (jstr ("QQ=="))) (jstr ("ok")) rfl rfl rfl

/-- Claim C3 counterexample: connect, open, then 40 seconds of silence —
more than the 30-second liveness window — produce no `disconnected`
event at all, because the source arms the liveness timer only in the
`ping` handler, never when the connection opens. -/
theorem c3_counterexample :
    run demoDecryptFail initSt [Ev.evConnect, Ev.evOpen, Ev.evTick 40000]
      = .ok ({ initSt with socket := some ReadyState.OPEN, now := 40000 },
          [Out.socketNew, Out.emitConnected]) := rfl

/-- Claim C3 (amended): the liveness window is armed by ping receipt, not
by the open. Once a ping has armed the 30-second timer and it expires
with no further ping, exactly one `disconnected` event fires with the
synthetic reason "Ping timeout", and a reconnect is scheduled when
reconnection is enabled. -/
theorem c3_ping_watchdog (s : St) (t dl : Nat)
    (hpt : s.pingTimeout = some dl) (hdl : dl ≤ t)
    (hrt : s.reconnectTimeout = none) (hrec : s.options.reconnect = true)
    (hdelay : 0 < s.options.reconnectDelay) :
    tick s t = ({ s with now := t, pingTimeout := none, reconnectTimeout := some (t + s.options.reconnectDelay) },
      [Out.emitDisconnected 0 pingTimeoutReason]) := by
  obtain ⟨cid, key, opts, sock, rt, pt, de, now⟩ := s
  obtain ⟨rec, ign, delay⟩ := opts
  have hpt' : pt = some dl := hpt
  have hrt' : rt = none := hrt
  have hrec' : rec = true := hrec
  have hdelay' : 0 < delay := hdelay
  subst hpt'
  subst hrt'
  subst hrec'
  unfold tick
  show fireDue 8 (St.mk cid key (Options.mk true ign delay) sock none (some dl) de t) = _
  show (if dl ≤ t then
      (let p := pingTimeoutFire (St.mk cid key (Options.mk true ign delay) sock none (some dl) de t)
       let q := fireDue 7 p.1
       (q.1, p.2 ++ q.2))
    else (St.mk cid key (Options.mk true ign delay) sock none (some dl) de t, [])) = _
  rw [if_pos hdl]
  show ((fireDue 7 (St.mk cid key (Options.mk true ign delay) sock (some (t + delay)) none de t)).1,
      [Out.emitDisconnected 0 pingTimeoutReason]
        ++ (fireDue 7 (St.mk cid key (Options.mk true ign delay) sock (some (t + delay)) none de t)).2) = _
  rw [fireDue_idle 7 (St.mk cid key (Options.mk true ign delay) sock (some (t + delay)) none de t)
    (t + delay) rfl rfl (by show ¬ t + delay ≤ t; omega)]
  rfl

theorem c3_ping_watchdog_witness :
    tick { demoSt with pingTimeout := some 30000 } 40000
      = ({ demoSt with now := 40000, pingTimeout := none, reconnectTimeout := some 42000 },
        [Out.emitDisconnected 0 pingTimeoutReason]) :=
  c3_ping_watchdog { demoSt with pingTimeout := some 30000 } 40000 30000 rfl
    (by omega) rfl rfl (by decide)

/-- Claim C8: at most one transport handle is active at any instant:
`connect()` opens a fresh handle exactly when no non-CLOSED handle
exists; when a non-CLOSED handle exists it only requests that handle's
close and returns, opening nothing. -/
theorem c8_single_handle (s : St) :
    ((Out.socketNew ∈ (connect s).2) ↔ (s.socket = none ∨ s.socket = some ReadyState.CLOSED))
    ∧ (∀ rs, s.socket = some rs → rs ≠ ReadyState.CLOSED →
        connect s = ({ s with pingTimeout := none, socket := some ReadyState.CLOSING },
          [Out.socketClose])) := by
  obtain ⟨cid, key, opts, sock, rt, pt, de, now⟩ := s
  constructor
  · cases sock with
    | none => exact ⟨fun _ => Or.inl rfl, fun _ => List.Mem.head _⟩
    | some rs =>
      cases rs with
      | CLOSED => exact ⟨fun _ => Or.inr rfl, fun _ => List.Mem.head _⟩
      | CONNECTING =>
        constructor
        · intro hmem
          cases hmem with
          | tail _ hm => cases hm
        · intro hor
          rcases hor with h | h
          · exact Option.noConfusion h
          · exact ReadyState.noConfusion (Option.some.inj h)
      | OPEN =>
        constructor
        · intro hmem
          cases hmem with
          | tail _ hm => cases hm
        · intro hor
          rcases hor with h | h
          · exact Option.noConfusion h
          · exact ReadyState.noConfusion (Option.some.inj h)
      | CLOSING =>
        constructor
        · intro hmem
          cases hmem with
          | tail _ hm => cases hm
        · intro hor
          rcases hor with h | h
          · exact Option.noConfusion h
          · exact ReadyState.noConfusion (Option.some.inj h)
  · intro rs hs hrs
    have hs' : sock = some rs := hs
    subst hs'
    cases rs with
    | CLOSED => exact absurd rfl hrs
    | CONNECTING => rfl
    | OPEN => rfl
    | CLOSING => rfl

theorem c8_single_handle_witness :
    connect demoSt = ({ demoSt with pingTimeout := none, socket := some ReadyState.CLOSING },
      [Out.socketClose]) :=
  (c8_single_handle demoSt).2 ReadyState.OPEN rfl (by decide)

/-- Claim C7: over any trace of interleaved transport `close` and
`unexpected-response` events, the `disconnected` event is emitted at most
once; it is not emitted at all when the episode's guard flag is already
set; and the `open` handler resets the guard flag for the next episode. -/
theorem c7_disconnected_once (decrypt : Decrypt) :
    ∀ (es : List Ev) (s s' : St) (outs : List Out),
      es.all isCloseOrUnexp = true → run decrypt s es = .ok (s', outs) →
      (outs.countP isDisconnectedOut ≤ 1
        ∧ (s.disconnectEmitted = true → outs.countP isDisconnectedOut = 0)
        ∧ (handleOpen s).1.disconnectEmitted = false) := by
  intro es
  induction es with
  | nil =>
    intro s s' outs hall hrun
    injection hrun with h2
    rw [show outs = [] from (congrArg Prod.snd h2).symm]
    exact ⟨by simp, fun _ => by simp, rfl⟩
  | cons e es ih =>
    intro s s' outs hall hrun
    rw [List.all_cons, Bool.and_eq_true] at hall
    cases e with
    | evConnect => exact Bool.noConfusion hall.1
    | evOpen => exact Bool.noConfusion hall.1
    | evSockError msg => exact Bool.noConfusion hall.1
    | evMessage m => exact Bool.noConfusion hall.1
    | evPing => exact Bool.noConfusion hall.1
    | evTick t => exact Bool.noConfusion hall.1
    | evClose code reason =>
      have hrun2 : Except.bind (run decrypt (handleClose s code reason).1 es)
          (fun q => Except.ok (q.1, (handleClose s code reason).2 ++ q.2))
          = Except.ok (s', outs) := hrun
      cases hq : run decrypt (handleClose s code reason).1 es with
      | error e2 =>
        rw [hq] at hrun2
        exact Except.noConfusion (show (Except.error e2 : Except Unit (St × List Out))
          = Except.ok (s', outs) from hrun2)
      | ok q =>
        rw [hq] at hrun2
        have hrun3 : Except.ok (q.1, (handleClose s code reason).2 ++ q.2)
            = Except.ok (s', outs) := hrun2
        injection hrun3 with h2
        have houts : outs = (handleClose s code reason).2 ++ q.2 :=
          (congrArg Prod.snd h2).symm
        have hq' : run decrypt (handleClose s code reason).1 es = .ok (q.1, q.2) := hq
        have hih := ih (handleClose s code reason).1 q.1 q.2 hall.2 hq'
        have hcnt : q.2.countP isDisconnectedOut = 0 :=
          hih.2.1 (handleClose_disc s code reason).1
        refine ⟨?_, ?_, rfl⟩
        · rw [houts, List.countP_append, (handleClose_disc s code reason).2, hcnt]
          cases hde : s.disconnectEmitted <;> simp
        · intro hde
          rw [houts, List.countP_append, (handleClose_disc s code reason).2, hcnt, hde]
          simp
    | evUnexpectedResponse status =>
      have hrun2 : Except.bind (run decrypt (handleUnexpectedResponse s status).1 es)
          (fun q => Except.ok (q.1, (handleUnexpectedResponse s status).2 ++ q.2))
          = Except.ok (s', outs) := hrun
      cases hq : run decrypt (handleUnexpectedResponse s status).1 es with
      | error e2 =>
        rw [hq] at hrun2
        exact Except.noConfusion (show (Except.error e2 : Except Unit (St × List Out))
          = Except.ok (s', outs) from hrun2)
      | ok q =>
        rw [hq] at hrun2
        have hrun3 : Except.ok (q.1, (handleUnexpectedResponse s status).2 ++ q.2)
            = Except.ok (s', outs) := hrun2
        injection hrun3 with h2
        have houts : outs = (handleUnexpectedResponse s status).2 ++ q.2 :=
          (congrArg Prod.snd h2).symm
        have hq' : run decrypt (handleUnexpectedResponse s status).1 es = .ok (q.1, q.2) := hq
        have hih := ih (handleUnexpectedResponse s status).1 q.1 q.2 hall.2 hq'
        have hcnt : q.2.countP isDisconnectedOut = 0 :=
          hih.2.1 (handleUnexpectedResponse_disc s status).1
        refine ⟨?_, ?_, rfl⟩
        · rw [houts, List.countP_append, (handleUnexpectedResponse_disc s status).2, hcnt]
          cases hde : s.disconnectEmitted <;> simp
        · intro hde
          rw [houts, List.countP_append, (handleUnexpectedResponse_disc s status).2, hcnt, hde]
          simp

theorem c7_disconnected_once_witness :
    [Out.emitDisconnected 1000 (jstr ("bye"))].countP isDisconnectedOut ≤ 1
      ∧ (demoSt.disconnectEmitted = true →
          [Out.emitDisconnected 1000 (jstr ("bye"))].countP isDisconnectedOut = 0)
      ∧ (handleOpen demoSt).1.disconnectEmitted = false :=
  c7_disconnected_once demoDecryptFail
    [Ev.evClose 1000 (jstr ("bye")), Ev.evUnexpectedResponse 500] demoSt
    { demoSt with socket := some ReadyState.CLOSED, reconnectTimeout := some 2000, disconnectEmitted := true }
    [Out.emitDisconnected 1000 (jstr ("bye"))] (by decide) rfl
